import Mathlib

/-!
A verification development of `bot.go`, the Slack bot of the repository `aibot`.

Go strings are modelled as lists of runes (`List Char`): the texts the bot
handles are decoded JSON, hence valid UTF-8, and on valid UTF-8 the functions
of `regexp` and `strings` used by `bot.go` act rune by rune.
-/

namespace Aibot

/-- A Go string, as its sequence of runes. -/
abbrev GoString := List Char

/-! ## The two regular expressions of `sanitizeImageGenerationPrompt` -/

/-- The literal of the pattern `(?i)imagine`. -/
def keyword : GoString := ['i', 'm', 'a', 'g', 'i', 'n', 'e']

/-- One rune against one letter `k` of the literal under the flag `(?i)`: the
letters of `imagine` fold only with their ASCII upper-case forms. -/
def foldEq (k c : Char) : Bool := c == k || c == k.toUpper

/-- The literal `pat`, under `(?i)`, matches at the head of the text. -/
def hasPrefixFold : GoString → GoString → Bool
  | [], _ => true
  | _ :: _, [] => false
  | k :: ks, c :: cs => foldEq k c && hasPrefixFold ks cs

/-- The scan of `regexp.ReplaceAllString(s, "")` for `(?i)imagine`: left to
right, a match at the current position is dropped and the scan resumes behind
it (`skip` counts the runes of the current match still to drop). -/
def replaceKeywordAux : Nat → GoString → GoString
  | _, [] => []
  | skip + 1, _ :: cs => replaceKeywordAux skip cs
  | 0, c :: cs =>
    if hasPrefixFold keyword (c :: cs) then replaceKeywordAux (keyword.length - 1) cs
    else c :: replaceKeywordAux 0 cs

/-- The call `r.ReplaceAllString(s, "")` with `r = (?i)imagine`. -/
def replaceAllKeyword (s : GoString) : GoString := replaceKeywordAux 0 s

/-- The lazy tail `.*?>` of the pattern `<.+?>`: the runes up to and including
the first `>`, none of them a newline (`.` does not match `\n`). -/
def lazyClose : GoString → Option GoString
  | [] => none
  | c :: cs =>
    if c = '>' then some ['>']
    else if c = '\n' then none
    else (lazyClose cs).map (fun m => c :: m)

/-- The match of `<.+?>` that starts at the head of the text, if there is one:
a `<`, one rune that is not a newline, then the lazy tail. -/
def matchMention : GoString → Option GoString
  | c :: d :: cs =>
    if c = '<' then
      if d = '\n' then none else (lazyClose cs).map (fun m => c :: d :: m)
    else none
  | _ => none

/-- The scan of `regexp.FindAllString(s, -1)` for `<.+?>`: successive
non-overlapping matches, leftmost first (`skip` counts the runes of the
current match still to pass). -/
def findAllMentionsAux : Nat → GoString → List GoString
  | _, [] => []
  | skip + 1, _ :: cs => findAllMentionsAux skip cs
  | 0, c :: cs =>
    match matchMention (c :: cs) with
    | some m => m :: findAllMentionsAux (m.length - 1) cs
    | none => findAllMentionsAux 0 cs

/-- The call `r.FindAllString(s, -1)` with `r = <.+?>`. -/
def findAllMentions (s : GoString) : List GoString := findAllMentionsAux 0 s

/-! ## `strings.Replace(s, old, "", -1)` and `strings.TrimSpace` -/

/-- The scan of `strings.Replace(s, old, "", -1)` for a non-empty `old`. -/
def stringsReplaceAux (old : GoString) : Nat → GoString → GoString
  | _, [] => []
  | skip + 1, _ :: cs => stringsReplaceAux old skip cs
  | 0, c :: cs =>
    if old.isPrefixOf (c :: cs) then stringsReplaceAux old (old.length - 1) cs
    else c :: stringsReplaceAux old 0 cs

/-- The call `strings.Replace(s, old, "", -1)`: every non-overlapping
occurrence of `old` is deleted; an empty `old` "matches" between the runes and
deleting it leaves `s` as it is. -/
def stringsReplaceAll (s old : GoString) : GoString :=
  if old = [] then s else stringsReplaceAux old 0 s

/-- The predicate `unicode.IsSpace`. -/
def isSpace (c : Char) : Bool :=
  let n := c.toNat
  n == 0x09 || n == 0x0A || n == 0x0B || n == 0x0C || n == 0x0D || n == 0x20 ||
  n == 0x85 || n == 0xA0 || n == 0x1680 || (0x2000 ≤ n && n ≤ 0x200A) ||
  n == 0x2028 || n == 0x2029 || n == 0x202F || n == 0x205F || n == 0x3000

/-- The call `strings.TrimSpace(s)`. -/
def trimSpace (s : GoString) : GoString :=
  ((s.dropWhile isSpace).reverse.dropWhile isSpace).reverse

/-! ## `sanitizeImageGenerationPrompt` -/

/-- The loop `for _, txt := range found { s = strings.Replace(s, txt, "", -1) }`. -/
def removeMentions (found : List GoString) (s : GoString) : GoString :=
  found.foldl stringsReplaceAll s

/-- The function `sanitizeImageGenerationPrompt`. -/
def sanitizeImageGenerationPrompt (s : GoString) : GoString :=
  let s1 := replaceAllKeyword s
  trimSpace (removeMentions (findAllMentions s1) s1)

/-! ## `noImageNeeded` and the message builders -/

/-- The call `strings.ToLower(s)`: every rune goes through `unicode.ToLower`,
a table of the Go library, taken as the parameter `toLower`. -/
def stringsToLower (toLower : Char → Char) (s : GoString) : GoString := s.map toLower

/-- The call `strings.Contains(s, substr)`. -/
def stringsContains (s substr : GoString) : Bool := s.tails.any (fun t => substr.isPrefixOf t)

/-- The call `strings.HasPrefix(s, p)`. -/
def stringsHasPrefixOf (s p : GoString) : Bool := p.isPrefixOf s

/-- The function `noImageNeeded`. -/
def noImageNeeded (toLower : Char → Char) (s : GoString) : Bool :=
  !stringsContains (stringsToLower toLower s) "imagine".toList

/-- An `error` value, as its `Error()` text. -/
abbrev GoError := GoString

/-- The blocks of `slack.Block` that `bot.go` builds. -/
inductive Block where
  /-- `slack.NewSectionBlock(&slack.TextBlockObject{Type: slack.MarkdownType, Text: text}, nil, nil)` -/
  | sectionBlock (text : GoString)
  /-- `slack.NewImageBlock(imageUrl, altText, blockID, nil)` -/
  | imageBlock (imageUrl altText blockID : GoString)
  deriving DecidableEq, Repr

/-- The values of `slack.MsgOption` that `bot.go` builds. -/
inductive MsgOption where
  /-- `slack.MsgOptionText(text, escape)` -/
  | msgOptionText (text : GoString) (escape : Bool)
  /-- `slack.MsgOptionBlocks(blocks...)` -/
  | msgOptionBlocks (blocks : List Block)
  deriving DecidableEq, Repr

/-- The function `buildSlackSimpleTextMessageOption`. -/
def buildSlackSimpleTextMessageOption (user text : GoString) : MsgOption :=
  MsgOption.msgOptionText ("<@".toList ++ user ++ "> ".toList ++ text) false

/-- The function `buildSlackAckMessageOption`. -/
def buildSlackAckMessageOption (toLower : Char → Char) (user text : GoString) : MsgOption :=
  let responseText := "<@".toList ++ user ++ "> Got it, let me think...".toList
  let responseText :=
    if noImageNeeded toLower text then
      "<@".toList ++ user ++
        "> Try to ask me something like: _*imagine*_ pink unicorn laying eggs in desert".toList
    else responseText
  MsgOption.msgOptionText responseText false

/-- The function `buildSlackImageMessageOption`. -/
def buildSlackImageMessageOption (imageUrl user text : GoString) : MsgOption :=
  let sectionBlock := Block.sectionBlock
    ("<@".toList ++ user ++ "> here's what I imagine about '".toList ++ text ++ "'".toList)
  let imageBlock := Block.imageBlock imageUrl text []
  MsgOption.msgOptionBlocks ([] ++ [sectionBlock, imageBlock])

/-! ## The collaborators and the trace of a handler -/

/-- The request `gpt.ImageRequest` of `generateImageUrlByUserText`. -/
structure ImageRequest where
  prompt : GoString
  n : Nat
  size : GoString
  deriving DecidableEq, Repr

/-- The parameters `slack.GetConversationsForUserParameters`. -/
structure GetConversationsForUserParameters where
  userID : GoString
  excludeArchived : Bool
  limit : Nat
  deriving DecidableEq, Repr

/-- The event `slackevents.AppMentionEvent`, with the fields `bot.go` reads. -/
structure AppMentionEvent where
  user : GoString
  text : GoString
  channel : GoString
  deriving DecidableEq, Repr

/-- The result of a fallible call: a value or an `error`. -/
inductive Result (α : Type) where
  | ok (value : α)
  | err (e : GoError)
  deriving DecidableEq, Repr

/-- What a handler does that the outside can see, in the order it does it. The
informational `log.Printf` lines are left out. -/
inductive Call where
  /-- `slackClient.PostMessage(ch, message)` and the error it returned -/
  | postMessage (ch : GoString) (message : MsgOption) (err : Option GoError)
  /-- `client.CreateImage(ctx, req)`: the URLs of `res.Data`, or the error -/
  | createImage (req : ImageRequest) (res : Result (List GoString))
  /-- the index `res.Data[0]` on an empty `res.Data` -/
  | panicIndexOutOfRange
  /-- `slackClient.AuthTest()`: the `UserID` of the response, or the error -/
  | authTest (res : Result GoString)
  /-- `slackClient.GetConversationsForUser(&params)`: the conversation ids, or the error -/
  | getConversationsForUser (params : GetConversationsForUserParameters)
      (res : Result (List GoString))
  /-- `logError(err)` -/
  | logError (err : GoError)
  /-- `slackevents.ParseEvent(body, slackevents.OptionNoVerifyToken())` -/
  | parseEvent (body : GoString)
  /-- `json.Unmarshal(body, &res)` into a challenge response -/
  | unmarshalChallenge (body : GoString)
  /-- `w.WriteHeader(code)` -/
  | writeHeader (code : Nat)
  /-- `w.Header().Set(key, value)` -/
  | headerSet (key value : GoString)
  /-- `w.Write(data)` -/
  | write (data : GoString)
  /-- `go handleMentionEvent(ev)` -/
  | goHandleMentionEvent (ev : AppMentionEvent)
  deriving DecidableEq, Repr

/-- The inner event of a callback: an app mention, or anything else (with its
`%v` rendering). -/
inductive InnerEventData where
  | appMentionEvent (ev : AppMentionEvent)
  | other (rendered : GoString)
  deriving DecidableEq, Repr

/-- The envelope `slackevents.EventsAPIEvent`. -/
structure EventsAPIEvent where
  type : GoString
  innerEvent : InnerEventData
  deriving DecidableEq, Repr

/-- The HTTP headers of a request. -/
abbrev Header := List (GoString × GoString)

/-- The collaborators of `bot.go`: the Slack client, the image API, the Slack
signature verifier and the decoders. A collaborator that talks to the outside
answers as a function of everything the handler did before (`List Call`), so
it may answer differently from call to call. -/
structure Env where
  /-- the global `signingSecret` -/
  signingSecret : GoString
  postMessage : List Call → GoString → MsgOption → Option GoError
  createImage : List Call → ImageRequest → Result (List GoString)
  authTest : List Call → Result GoString
  getConversationsForUser : List Call → GetConversationsForUserParameters → Result (List GoString)
  /-- the error of `slack.NewSecretsVerifier(header, secret)` -/
  newSecretsVerifier : Header → GoString → Option GoError
  /-- the error of `sv.Write(body)` -/
  svWrite : Header → GoString → GoString → Option GoError
  /-- the error of `sv.Ensure()` -/
  svEnsure : Header → GoString → GoString → Option GoError
  parseEvent : GoString → Result EventsAPIEvent
  /-- the `Challenge` field decoded by `json.Unmarshal` -/
  unmarshalChallenge : GoString → Result GoString

/-! ## The mention workflow -/

/-- The constant `gpt.CreateImageSize256x256`. -/
def createImageSize256x256 : GoString := "256x256".toList

/-- The function `postSlackMessage`: the new history and the error. -/
def postSlackMessage (env : Env) (h : List Call) (ch : GoString) (message : MsgOption) :
    List Call × Option GoError :=
  let err := env.postMessage h ch message
  (h ++ [Call.postMessage ch message err], err)

/-- The function `generateImageUrlByUserText`: the new history and what it
returns, `none` when `res.Data[0]` panics. -/
def generateImageUrlByUserText (env : Env) (h : List Call) (s : GoString) :
    List Call × Option (Result GoString) :=
  let req : ImageRequest := ImageRequest.mk s 1 createImageSize256x256
  let res := env.createImage h req
  let h1 := h ++ [Call.createImage req res]
  match res with
  | Result.err e => (h1, some (Result.err e))
  | Result.ok [] => (h1 ++ [Call.panicIndexOutOfRange], none)
  | Result.ok (url :: _) => (h1, some (Result.ok url))

/-- The places where `handleMentionEvent` stops. -/
inductive MentionExit where
  /-- the `return` after the acknowledgement could not be posted -/
  | ackFailed
  /-- the `return` of the gate `if noImageNeeded(ev.Text)` -/
  | noImageNeeded
  /-- the panic of `res.Data[0]` inside `generateImageUrlByUserText` -/
  | panicked
  /-- the `return` after `generateImageUrlByUserText` returned an error -/
  | generationFailed
  /-- the `return` after the image message could not be posted -/
  | imageFailed
  /-- the end of the function, after the image message was posted -/
  | imageSent
  deriving DecidableEq, Repr

/-- The end states of the mention workflow of the specification. -/
inductive WorkflowState where
  | completed
  | imageSkipped
  | failed
  deriving DecidableEq, Repr

/-- The end state that the specification of the mention workflow gives to
each place where `handleMentionEvent` stops: `ImageSkipped` at the gate,
`Completed` after the image message, `Failed` everywhere else. -/
def specEndState : MentionExit → WorkflowState
  | MentionExit.noImageNeeded => WorkflowState.imageSkipped
  | MentionExit.imageSent => WorkflowState.completed
  | MentionExit.ackFailed => WorkflowState.failed
  | MentionExit.panicked => WorkflowState.failed
  | MentionExit.generationFailed => WorkflowState.failed
  | MentionExit.imageFailed => WorkflowState.failed

/-- The function `handleMentionEvent`, from the history `h` to the history at
its end, with the place where it stopped. The deferred `runtime.Goexit()` ends
the goroutine after the function and adds nothing to the history. -/
def handleMentionEvent (toLower : Char → Char) (env : Env) (ev : AppMentionEvent)
    (h : List Call) : List Call × MentionExit :=
  let msg := buildSlackAckMessageOption toLower ev.user ev.text
  match postSlackMessage env h ev.channel msg with
  | (h1, some err) => (h1 ++ [Call.logError err], MentionExit.ackFailed)
  | (h1, none) =>
    if noImageNeeded toLower ev.text then (h1, MentionExit.noImageNeeded)
    else
      let prompt := sanitizeImageGenerationPrompt ev.text
      match generateImageUrlByUserText env h1 prompt with
      | (h2, none) => (h2, MentionExit.panicked)
      | (h2, some (Result.err err)) =>
        let msg := buildSlackSimpleTextMessageOption ev.user err
        let h3 := (postSlackMessage env h2 ev.channel msg).1
        (h3 ++ [Call.logError err], MentionExit.generationFailed)
      | (h2, some (Result.ok url)) =>
        let msg := buildSlackImageMessageOption url ev.user prompt
        match postSlackMessage env h2 ev.channel msg with
        | (h3, some err) => (h3 ++ [Call.logError err], MentionExit.imageFailed)
        | (h3, none) => (h3, MentionExit.imageSent)

/-! ## The broadcast handler -/

/-- The request of `/send-to-channels`, with what the handler reads of it. -/
structure Request where
  method : GoString
  host : GoString
  /-- `r.FormValue(key)` -/
  formValue : GoString → GoString

/-- The loop `for _, ch := range channels` of `handleSendToChannelsRequest`. -/
def rangeChannels (env : Env) (msg : GoString) : List GoString → List Call → List Call
  | [], h => h
  | ch :: chs, h =>
    match postSlackMessage env h ch (MsgOption.msgOptionText msg false) with
    | (h1, some err) => rangeChannels env msg chs (h1 ++ [Call.logError err])
    | (h1, none) => rangeChannels env msg chs h1

/-- The function `handleSendToChannelsRequest`. -/
def handleSendToChannelsRequest (env : Env) (r : Request) (h : List Call) : List Call :=
  if r.method ≠ "POST".toList ||
      (!stringsHasPrefixOf r.host "localhost".toList &&
        !stringsHasPrefixOf r.host "127.0.0.1".toList) then
    h ++ [Call.logError
      ("only POST requests from localhost allowed, you requested ".toList ++ r.method ++
        ", host: ".toList ++ r.host)]
  else
    let msg := r.formValue "message".toList
    let slackChannel := r.formValue "channel".toList
    if slackChannel ≠ [] then
      match postSlackMessage env h slackChannel (MsgOption.msgOptionText msg false) with
      | (h1, some err) => h1 ++ [Call.logError err]
      | (h1, none) => h1
    else
      let authTestResponse := env.authTest h
      let h1 := h ++ [Call.authTest authTestResponse]
      match authTestResponse with
      | Result.err err => h1 ++ [Call.logError err]
      | Result.ok userID =>
        let params : GetConversationsForUserParameters :=
          GetConversationsForUserParameters.mk userID true 100
        let res := env.getConversationsForUser h1 params
        let h2 := h1 ++ [Call.getConversationsForUser params res]
        match res with
        | Result.err err => h2 ++ [Call.logError err]
        | Result.ok channels => rangeChannels env msg channels h2

/-! ## The event handler -/

/-- The request of `/event-listener`, with what the handler reads of it. -/
structure EventRequest where
  /-- `io.ReadAll(r.Body)` -/
  readAll : Result GoString
  header : Header

/-- The function `verifySlackSignature`. -/
def verifySlackSignature (env : Env) (header : Header) (body : GoString) : Option GoError :=
  match env.newSecretsVerifier header env.signingSecret with
  | some err => some err
  | none =>
    match env.svWrite header env.signingSecret body with
    | some err => some err
    | none =>
      match env.svEnsure header env.signingSecret body with
      | some err => some err
      | none => none

/-- The function `handleEventRequest`. The goroutine started by
`go handleMentionEvent(ev)` is recorded, not run. -/
def handleEventRequest (env : Env) (r : EventRequest) (h : List Call) : List Call :=
  match r.readAll with
  | Result.err _ => h ++ [Call.writeHeader 400]
  | Result.ok body =>
    match verifySlackSignature env r.header body with
    | some _ => h ++ [Call.writeHeader 400]
    | none =>
      let h1 := h ++ [Call.parseEvent body]
      match env.parseEvent body with
      | Result.err _ => h1 ++ [Call.writeHeader 500]
      | Result.ok eventsAPIEvent =>
        if eventsAPIEvent.type = "url_verification".toList then
          let h2 := h1 ++ [Call.unmarshalChallenge body]
          match env.unmarshalChallenge body with
          | Result.err err => h2 ++ [Call.writeHeader 500, Call.logError err]
          | Result.ok challenge =>
            h2 ++ [Call.headerSet "Content-Type".toList "text".toList, Call.write challenge]
        else if eventsAPIEvent.type = "event_callback".toList then
          match eventsAPIEvent.innerEvent with
          | InnerEventData.appMentionEvent ev => h1 ++ [Call.goHandleMentionEvent ev]
          | InnerEventData.other rendered =>
            h1 ++ [Call.logError ("unsupported callback event type: ".toList ++ rendered)]
        else
          h1 ++ [Call.logError ("unsupported event type: ".toList ++ eventsAPIEvent.type)]

/-! ## Reading a trace -/

/-- The messages posted in a trace: conversation and message, in order. -/
def postedMessages : List Call → List (GoString × MsgOption)
  | [] => []
  | Call.postMessage ch message _ :: cs => (ch, message) :: postedMessages cs
  | _ :: cs => postedMessages cs

/-- The requests sent to the image generator in a trace. -/
def imageRequests : List Call → List ImageRequest
  | [] => []
  | Call.createImage req _ :: cs => req :: imageRequests cs
  | _ :: cs => imageRequests cs

/-- The status of the HTTP response of a trace: the code of the first
`WriteHeader`, and 200 (what `net/http` sends) when the handler wrote none or
wrote the body first. -/
def responseStatus : List Call → Nat
  | [] => 200
  | Call.writeHeader code :: _ => code
  | Call.write _ :: _ => 200
  | _ :: cs => responseStatus cs

/-- The calls a handler added to the history `h` it started from. -/
def callsSince (h t : List Call) : List Call := t.drop h.length

/-- The request fails before any processing: the body cannot be read, or
`verifySlackSignature` returns an error. -/
def failsVerification (env : Env) (r : EventRequest) : Bool :=
  match r.readAll with
  | Result.err _ => true
  | Result.ok body => (verifySlackSignature env r.header body).isSome

/-- A collaborator set for the examples: posting fails exactly on the
conversations of `failing`, the image API answers `image`, the bot belongs to
`conversations`, the signature check answers `signature` and the parser
answers `parsed`. -/
def exampleEnv (failing : List GoString) (image : Result (List GoString))
    (conversations : List GoString) (signature : Option GoError)
    (parsed : Result EventsAPIEvent) : Env where
  signingSecret := "secret".toList
  postMessage := fun _ ch _ => if ch ∈ failing then some "channel_not_found".toList else none
  createImage := fun _ _ => image
  authTest := fun _ => Result.ok "UBOT".toList
  getConversationsForUser := fun _ _ => Result.ok conversations
  newSecretsVerifier := fun _ _ => none
  svWrite := fun _ _ _ => none
  svEnsure := fun _ _ _ => signature
  parseEvent := fun _ => parsed
  unmarshalChallenge := fun _ => Result.ok "challenge".toList

/-- A lower-casing of the ASCII letters `A`-`Z`. It agrees with
`unicode.ToLower` on ASCII runes only and stands for it in the examples, all
of them ASCII texts; the theorems hold for every `toLower`. -/
def asciiToLower (c : Char) : Char := c.toLower

/-! ## The vocabulary of the statements -/

/-- The text `K` is a spelling of `imagine` in some mix of upper and lower
case: seven runes that `(?i)imagine` matches. -/
def isKeywordSpelling (K : GoString) : Bool :=
  K.length == keyword.length && hasPrefixFold keyword K

/-- The text contains `imagine` under case-insensitive comparison: the
pattern `(?i)imagine` matches at some position. -/
def containsKeywordFold (s : GoString) : Bool :=
  s.tails.any (fun t => hasPrefixFold keyword t)

/-- The pattern `<.+?>` matches at some position of the text. -/
def containsMention (s : GoString) : Bool :=
  s.tails.any (fun t => (matchMention t).isSome)

/-- The mention token `<@ID>`. -/
def mentionToken (id : GoString) : GoString := "<@".toList ++ id ++ ">".toList

/-- A rune allowed inside a token: not `<`, not `>`, not a newline. -/
def isTokenRune (c : Char) : Bool := c != '<' && c != '>' && c != '\n'

/-- A rune outside the tokens: not `<` and not `>`. -/
def isPlainRune (c : Char) : Bool := c != '<' && c != '>'

/-- A text cut into pieces: single runes and tokens `<body>`. -/
inductive Piece where
  | rune (c : Char)
  | token (body : GoString)
  deriving DecidableEq, Repr

/-- The text of a piece. -/
def Piece.text : Piece → GoString
  | Piece.rune c => [c]
  | Piece.token body => '<' :: (body ++ ['>'])

/-- A piece is well formed: a rune other than `<` and `>`, or a token whose
body is not empty and has no `<`, no `>` and no newline. -/
def Piece.wellFormed : Piece → Bool
  | Piece.rune c => isPlainRune c
  | Piece.token body => !body.isEmpty && body.all isTokenRune

/-- A piece the two scans of the second stage read as such: a rune other than
`<` (a `>` outside the tokens is allowed), or a token whose body is not empty
and has no `<`, no `>` and no newline. -/
def Piece.scannable : Piece → Bool
  | Piece.rune c => c != '<'
  | Piece.token body => !body.isEmpty && body.all isTokenRune

/-- The text of a list of pieces. -/
def piecesText (ps : List Piece) : GoString := (ps.map Piece.text).flatten

/-- The runes of a list of pieces that stand outside the tokens. -/
def plainText : List Piece → GoString
  | [] => []
  | Piece.rune c :: ps => c :: plainText ps
  | Piece.token _ :: ps => plainText ps

/-- The bodies of the tokens of a list of pieces, in order. -/
def tokenBodies : List Piece → List GoString
  | [] => []
  | Piece.rune _ :: ps => tokenBodies ps
  | Piece.token body :: ps => body :: tokenBodies ps

/-- The pieces without the tokens whose body is in `bs`. -/
def dropTokens (bs : List GoString) : List Piece → List Piece
  | [] => []
  | Piece.rune c :: ps => Piece.rune c :: dropTokens bs ps
  | Piece.token body :: ps =>
    if body ∈ bs then dropTokens bs ps else Piece.token body :: dropTokens bs ps

/-- The text `p0 K1 p1 ... Kn pn` of an alternation of pieces and keyword
spellings, given as `p0` and the pairs `(Ki, pi)`. -/
def interleave (p0 : GoString) (rest : List (GoString × GoString)) : GoString :=
  p0 ++ (rest.map (fun kp => kp.1 ++ kp.2)).flatten

/-- The text `p0 p1 ... pn`: the alternation without its keyword spellings. -/
def joinPieces (p0 : GoString) (rest : List (GoString × GoString)) : GoString :=
  p0 ++ (rest.map (fun kp => kp.2)).flatten

/-! ## The scans, one step at a time -/

theorem replaceKeywordAux_skip (rest : GoString) :
    ∀ (xs : GoString) (n : Nat), xs.length = n →
      replaceKeywordAux n (xs ++ rest) = replaceKeywordAux 0 rest
  | [], n, h => by simp at h; subst h; rfl
  | x :: xs, n, h => by
    cases n with
    | zero => simp at h
    | succ m =>
      have hm : xs.length = m := by simpa using h
      simpa [replaceKeywordAux] using replaceKeywordAux_skip rest xs m hm

theorem hasPrefixFold_append (r : GoString) :
    ∀ (pat a : GoString), hasPrefixFold pat a = true → hasPrefixFold pat (a ++ r) = true
  | [], _, _ => by simp [hasPrefixFold]
  | _ :: _, [], h => by simp [hasPrefixFold] at h
  | k :: ks, c :: cs, h => by
    simp only [hasPrefixFold, Bool.and_eq_true, List.cons_append] at h ⊢
    exact ⟨h.1, hasPrefixFold_append r ks cs h.2⟩

theorem hasPrefixFold_sep (c : Char) (b : GoString) :
    ∀ (pat a : GoString), (∀ k ∈ pat, foldEq k c = false) →
      hasPrefixFold pat (a ++ c :: b) = true →
      pat.length ≤ a.length ∧ hasPrefixFold pat a = true
  | [], _, _, _ => by simp [hasPrefixFold]
  | k :: ks, [], hc, h => by
    simp [hasPrefixFold, hc k (List.mem_cons_self _ _)] at h
  | k :: ks, x :: xs, hc, h => by
    simp only [hasPrefixFold, Bool.and_eq_true, List.cons_append] at h ⊢
    have ih := hasPrefixFold_sep c b ks xs
      (fun k hk => hc k (List.mem_cons_of_mem _ hk)) h.2
    exact ⟨by simpa using ih.1, h.1, ih.2⟩

theorem replaceKeywordAux_sep (c : Char) (hc : ∀ k ∈ keyword, foldEq k c = false)
    (b : GoString) :
    ∀ (a : GoString) (n : Nat), n ≤ a.length →
      replaceKeywordAux n (a ++ c :: b) = replaceKeywordAux n a ++ c :: replaceKeywordAux 0 b
  | [], n, h => by
    have hn : n = 0 := by simpa using h
    subst hn
    have h0 : hasPrefixFold keyword (c :: b) = false := by
      have := hc 'i' (by simp [keyword])
      simp [keyword, hasPrefixFold, this]
    simp [replaceKeywordAux, h0]
  | x :: xs, n + 1, h => by
    have hn : n ≤ xs.length := by simpa using h
    simpa [replaceKeywordAux] using replaceKeywordAux_sep c hc b xs n hn
  | x :: xs, 0, _ => by
    have ih0 := replaceKeywordAux_sep c hc b xs 0 (Nat.zero_le _)
    cases hm : hasPrefixFold keyword (x :: (xs ++ c :: b)) with
    | true =>
      have hs := hasPrefixFold_sep c b keyword (x :: xs) hc hm
      have hlen : keyword.length - 1 ≤ xs.length := by
        have h1 := hs.1
        simp only [keyword, List.length_cons, List.length_nil] at h1 ⊢
        omega
      have ih := replaceKeywordAux_sep c hc b xs (keyword.length - 1) hlen
      have e1 : replaceKeywordAux 0 (x :: (xs ++ c :: b))
          = replaceKeywordAux (keyword.length - 1) (xs ++ c :: b) := by
        rw [replaceKeywordAux, if_pos hm]
      have e2 : replaceKeywordAux 0 (x :: xs)
          = replaceKeywordAux (keyword.length - 1) xs := by
        rw [replaceKeywordAux, if_pos hs.2]
      rw [List.cons_append, e1, e2, ih]
    | false =>
      have hm2 : hasPrefixFold keyword (x :: xs) = false := by
        cases hx : hasPrefixFold keyword (x :: xs) with
        | false => rfl
        | true =>
          have h2 := hasPrefixFold_append (c :: b) keyword (x :: xs) hx
          rw [List.cons_append, hm] at h2
          exact h2.symm
      have e1 : replaceKeywordAux 0 (x :: (xs ++ c :: b))
          = x :: replaceKeywordAux 0 (xs ++ c :: b) := by
        rw [replaceKeywordAux, if_neg (by simp [hm])]
      have e2 : replaceKeywordAux 0 (x :: xs) = x :: replaceKeywordAux 0 xs := by
        rw [replaceKeywordAux, if_neg (by simp [hm2])]
      rw [List.cons_append, e1, e2, ih0, List.cons_append]

theorem replaceKeywordAux_sublist :
    ∀ (s : GoString) (n : Nat), (replaceKeywordAux n s).Sublist s
  | [], n => by simp [replaceKeywordAux]
  | x :: xs, n + 1 => by
    simpa [replaceKeywordAux] using
      (replaceKeywordAux_sublist xs n).trans (List.sublist_cons_self x xs)
  | x :: xs, 0 => by
    by_cases hm : hasPrefixFold keyword (x :: xs) = true
    · simpa [replaceKeywordAux, hm] using
        (replaceKeywordAux_sublist xs (keyword.length - 1)).trans (List.sublist_cons_self x xs)
    · have hm2 : hasPrefixFold keyword (x :: xs) = false := by simpa using hm
      simpa [replaceKeywordAux, hm2] using replaceKeywordAux_sublist xs 0

theorem replaceKeywordAux_of_not_contains :
    ∀ (s : GoString), containsKeywordFold s = false → replaceKeywordAux 0 s = s
  | [], _ => by simp [replaceKeywordAux]
  | x :: xs, h => by
    simp only [containsKeywordFold, List.tails, List.any_cons, Bool.or_eq_false_iff] at h
    have ih := replaceKeywordAux_of_not_contains xs (by simpa [containsKeywordFold] using h.2)
    simp [replaceKeywordAux, h.1, ih]

theorem lazyClose_body (rest : GoString) :
    ∀ (body : GoString), body.all isTokenRune = true →
      lazyClose (body ++ '>' :: rest) = some (body ++ ['>'])
  | [], _ => by simp [lazyClose]
  | c :: cs, h => by
    simp only [List.all_cons, Bool.and_eq_true] at h
    have hc := h.1
    simp only [isTokenRune, Bool.and_eq_true, bne_iff_ne, ne_eq] at hc
    simp [lazyClose, hc.1.2, hc.2, lazyClose_body rest cs h.2]

theorem matchMention_token (body rest : GoString)
    (h : (Piece.token body).scannable = true) :
    matchMention (Piece.text (Piece.token body) ++ rest) = some (Piece.text (Piece.token body)) := by
  cases body with
  | nil => simp [Piece.scannable] at h
  | cons d ds =>
    simp only [Piece.scannable, List.isEmpty_cons, Bool.not_false, Bool.true_and,
      List.all_cons, Bool.and_eq_true] at h
    have hd := h.1
    simp only [isTokenRune, Bool.and_eq_true, bne_iff_ne, ne_eq] at hd
    have hl := lazyClose_body rest ds h.2
    simp [Piece.text, matchMention, hd.2, hl]

theorem findAllMentionsAux_skip (rest : GoString) :
    ∀ (xs : GoString) (n : Nat), xs.length = n →
      findAllMentionsAux n (xs ++ rest) = findAllMentionsAux 0 rest
  | [], n, h => by simp at h; subst h; rfl
  | x :: xs, n, h => by
    cases n with
    | zero => simp at h
    | succ m =>
      have hm : xs.length = m := by simpa using h
      simpa [findAllMentionsAux] using findAllMentionsAux_skip rest xs m hm

theorem findAllMentions_piecesText :
    ∀ (ps : List Piece), ps.all Piece.scannable = true →
      findAllMentions (piecesText ps) = (tokenBodies ps).map (fun b => Piece.text (Piece.token b))
  | [], _ => by simp [findAllMentions, piecesText, tokenBodies, findAllMentionsAux]
  | Piece.rune c :: ps, h => by
    simp only [List.all_cons, Bool.and_eq_true] at h
    have ih := findAllMentions_piecesText ps h.2
    have hc := h.1
    simp only [Piece.scannable, bne_iff_ne, ne_eq] at hc
    have hm : matchMention (c :: piecesText ps) = none := by
      cases hp : piecesText ps with
      | nil => simp [matchMention]
      | cons d ds => simp [matchMention, hc]
    simp only [findAllMentions] at ih
    have e : piecesText (Piece.rune c :: ps) = c :: piecesText ps := by
      simp [piecesText, Piece.text]
    rw [findAllMentions, e, findAllMentionsAux, hm]
    simpa [tokenBodies] using ih
  | Piece.token body :: ps, h => by
    simp only [List.all_cons, Bool.and_eq_true] at h
    have ih := findAllMentions_piecesText ps h.2
    have hm := matchMention_token body (piecesText ps) h.1
    have hskip := findAllMentionsAux_skip (piecesText ps) (body ++ ['>'])
      ((Piece.text (Piece.token body)).length - 1) (by simp [Piece.text])
    simp only [findAllMentions] at ih
    have e : piecesText (Piece.token body :: ps)
        = '<' :: ((body ++ ['>']) ++ piecesText ps) := by
      simp [piecesText, Piece.text]
    have hm2 : matchMention ('<' :: ((body ++ ['>']) ++ piecesText ps))
        = some (Piece.text (Piece.token body)) := by
      simpa [Piece.text] using hm
    rw [findAllMentions, e, findAllMentionsAux, hm2]
    simp only [tokenBodies, List.map_cons]
    rw [hskip, ih]

theorem stringsReplaceAux_skip (old rest : GoString) :
    ∀ (xs : GoString) (n : Nat), xs.length = n →
      stringsReplaceAux old n (xs ++ rest) = stringsReplaceAux old 0 rest
  | [], n, h => by simp at h; subst h; rfl
  | x :: xs, n, h => by
    cases n with
    | zero => simp at h
    | succ m =>
      have hm : xs.length = m := by simpa using h
      simpa [stringsReplaceAux] using stringsReplaceAux_skip old rest xs m hm

theorem stringsReplaceAux_plain (o rest : GoString) :
    ∀ (xs : GoString), (∀ c ∈ xs, c ≠ '<') →
      stringsReplaceAux ('<' :: o) 0 (xs ++ rest) = xs ++ stringsReplaceAux ('<' :: o) 0 rest
  | [], _ => by simp
  | x :: xs, h => by
    have hx : x ≠ '<' := h x (List.mem_cons_self _ _)
    have ih := stringsReplaceAux_plain o rest xs (fun c hc => h c (List.mem_cons_of_mem _ hc))
    have hp : List.isPrefixOf ('<' :: o) (x :: (xs ++ rest)) = false := by
      simp [List.isPrefixOf, Ne.symm hx]
    rw [List.cons_append, stringsReplaceAux, if_neg (by rw [hp]; decide), ih]
    rfl

theorem token_body_eq_of_isPrefixOf (rest : GoString) :
    ∀ (b b1 : GoString), b.all isTokenRune = true → b1.all isTokenRune = true →
      List.isPrefixOf (b ++ ['>']) (b1 ++ '>' :: rest) = true → b = b1
  | [], [], _, _, _ => rfl
  | [], d :: ds, _, h1, h => by
    simp only [List.all_cons, Bool.and_eq_true, isTokenRune, bne_iff_ne, ne_eq] at h1
    simp [List.isPrefixOf] at h
    exact absurd h.symm h1.1.1.2
  | c :: cs, [], h0, _, h => by
    simp only [List.all_cons, Bool.and_eq_true, isTokenRune, bne_iff_ne, ne_eq] at h0
    simp [List.isPrefixOf] at h
    exact absurd h.1 h0.1.1.2
  | c :: cs, d :: ds, h0, h1, h => by
    simp only [List.all_cons, Bool.and_eq_true] at h0 h1
    simp only [List.cons_append, List.isPrefixOf, Bool.and_eq_true, beq_iff_eq] at h
    rw [h.1, token_body_eq_of_isPrefixOf rest cs ds h0.2 h1.2 h.2]

theorem piecesText_rune (c : Char) (ps : List Piece) :
    piecesText (Piece.rune c :: ps) = c :: piecesText ps := by
  simp [piecesText, Piece.text]

theorem piecesText_token (body : GoString) (ps : List Piece) :
    piecesText (Piece.token body :: ps) = '<' :: ((body ++ ['>']) ++ piecesText ps) := by
  simp [piecesText, Piece.text]

theorem stringsReplaceAux_piecesText (b : GoString) (hb : b.all isTokenRune = true) :
    ∀ (ps : List Piece), ps.all Piece.scannable = true →
      stringsReplaceAux ('<' :: (b ++ ['>'])) 0 (piecesText ps) = piecesText (dropTokens [b] ps)
  | [], _ => by simp [piecesText, dropTokens, stringsReplaceAux]
  | Piece.rune c :: ps, h => by
    simp only [List.all_cons, Bool.and_eq_true] at h
    have ih := stringsReplaceAux_piecesText b hb ps h.2
    have hc := h.1
    simp only [Piece.scannable, bne_iff_ne, ne_eq] at hc
    have hp : List.isPrefixOf ('<' :: (b ++ ['>'])) (c :: piecesText ps) = false := by
      simp [List.isPrefixOf, Ne.symm hc]
    rw [piecesText_rune, stringsReplaceAux, if_neg (by rw [hp]; decide), ih, dropTokens,
      piecesText_rune]
  | Piece.token body :: ps, h => by
    simp only [List.all_cons, Bool.and_eq_true] at h
    have ih := stringsReplaceAux_piecesText b hb ps h.2
    have hw := h.1
    simp only [Piece.scannable, Bool.and_eq_true] at hw
    by_cases hbb : body = b
    · subst hbb
      have hp : List.isPrefixOf ('<' :: (body ++ ['>']))
          ('<' :: ((body ++ ['>']) ++ piecesText ps)) = true := by
        have : List.isPrefixOf ('<' :: (body ++ ['>']))
            (('<' :: (body ++ ['>'])) ++ piecesText ps) = true := by
          rw [List.isPrefixOf_iff_prefix]; exact List.prefix_append _ _
        simp at this ⊢
      have hskip := stringsReplaceAux_skip ('<' :: (body ++ ['>'])) (piecesText ps)
        (body ++ ['>']) (('<' :: (body ++ ['>'])).length - 1) (by simp)
      rw [piecesText_token, stringsReplaceAux, if_pos hp, hskip, ih]
      simp [dropTokens]
    · have hp : List.isPrefixOf ('<' :: (b ++ ['>']))
          ('<' :: ((body ++ ['>']) ++ piecesText ps)) = false := by
        cases hq : List.isPrefixOf ('<' :: (b ++ ['>']))
            ('<' :: ((body ++ ['>']) ++ piecesText ps)) with
        | false => rfl
        | true =>
          simp only [List.isPrefixOf, Bool.and_eq_true, beq_self_eq_true, true_and] at hq
          have := token_body_eq_of_isPrefixOf (piecesText ps) b body hb hw.2
            (by simpa using hq)
          exact absurd this.symm hbb
      have hplain := stringsReplaceAux_plain (b ++ ['>']) (piecesText ps) (body ++ ['>'])
        (by
          intro c hc
          rcases List.mem_append.1 hc with hc | hc
          · have := List.all_eq_true.1 hw.2 c hc
            simp only [isTokenRune, Bool.and_eq_true, bne_iff_ne, ne_eq] at this
            exact this.1.1
          · have : c = '>' := by simpa using hc
            rw [this]; decide)
      rw [piecesText_token, stringsReplaceAux, if_neg (by rw [hp]; decide), hplain, ih]
      simp [dropTokens, hbb, piecesText_token]

theorem dropTokens_nil : ∀ (ps : List Piece), dropTokens [] ps = ps
  | [] => rfl
  | Piece.rune c :: ps => by simp [dropTokens, dropTokens_nil ps]
  | Piece.token body :: ps => by simp [dropTokens, dropTokens_nil ps]

theorem dropTokens_dropTokens (b : GoString) (bs : List GoString) :
    ∀ (ps : List Piece), dropTokens bs (dropTokens [b] ps) = dropTokens (b :: bs) ps
  | [] => rfl
  | Piece.rune c :: ps => by simp [dropTokens, dropTokens_dropTokens b bs ps]
  | Piece.token body :: ps => by
    by_cases h1 : body = b
    · simp [dropTokens, h1, dropTokens_dropTokens b bs ps]
    · by_cases h2 : body ∈ bs
      · simp [dropTokens, h1, h2, dropTokens_dropTokens b bs ps]
      · simp [dropTokens, h1, h2, dropTokens_dropTokens b bs ps]

theorem dropTokens_scannable (bs : List GoString) :
    ∀ (ps : List Piece), ps.all Piece.scannable = true →
      (dropTokens bs ps).all Piece.scannable = true
  | [], _ => rfl
  | Piece.rune c :: ps, h => by
    simp only [List.all_cons, Bool.and_eq_true] at h
    simp [dropTokens, h.1, dropTokens_scannable bs ps h.2]
  | Piece.token body :: ps, h => by
    simp only [List.all_cons, Bool.and_eq_true] at h
    by_cases h2 : body ∈ bs
    · simp [dropTokens, h2, dropTokens_scannable bs ps h.2]
    · simp [dropTokens, h2, h.1, dropTokens_scannable bs ps h.2]

theorem piecesText_dropTokens_all (bs : List GoString) :
    ∀ (ps : List Piece), (∀ b ∈ tokenBodies ps, b ∈ bs) →
      piecesText (dropTokens bs ps) = plainText ps
  | [], _ => rfl
  | Piece.rune c :: ps, h => by
    have ih := piecesText_dropTokens_all bs ps (by simpa [tokenBodies] using h)
    simp [dropTokens, plainText, piecesText_rune, ih]
  | Piece.token body :: ps, h => by
    have hb : body ∈ bs := h body (by simp [tokenBodies])
    have ih := piecesText_dropTokens_all bs ps
      (fun b hb1 => h b (by simp [tokenBodies, hb1]))
    simp [dropTokens, plainText, hb, ih]

theorem tokenBodies_isTokenRune :
    ∀ (ps : List Piece), ps.all Piece.scannable = true →
      ∀ b ∈ tokenBodies ps, b.all isTokenRune = true
  | [], _, b, hb => by simp [tokenBodies] at hb
  | Piece.rune c :: ps, h, b, hb => by
    simp only [List.all_cons, Bool.and_eq_true] at h
    exact tokenBodies_isTokenRune ps h.2 b (by simpa [tokenBodies] using hb)
  | Piece.token body :: ps, h, b, hb => by
    simp only [List.all_cons, Bool.and_eq_true, Piece.scannable] at h
    simp only [tokenBodies, List.mem_cons] at hb
    rcases hb with hb | hb
    · rw [hb]; exact h.1.2
    · exact tokenBodies_isTokenRune ps h.2 b hb

theorem removeMentions_piecesText :
    ∀ (bs : List GoString) (ps : List Piece), (∀ b ∈ bs, b.all isTokenRune = true) →
      ps.all Piece.scannable = true →
      removeMentions (bs.map (fun b => Piece.text (Piece.token b))) (piecesText ps)
        = piecesText (dropTokens bs ps)
  | [], ps, _, _ => by simp [removeMentions, dropTokens_nil]
  | b :: bs, ps, hbs, hps => by
    have hb := hbs b (List.mem_cons_self _ _)
    have h1 := stringsReplaceAux_piecesText b hb ps hps
    have ih := removeMentions_piecesText bs (dropTokens [b] ps)
      (fun b1 hb1 => hbs b1 (List.mem_cons_of_mem _ hb1)) (dropTokens_scannable [b] ps hps)
    have e : stringsReplaceAll (piecesText ps) (Piece.text (Piece.token b))
        = piecesText (dropTokens [b] ps) := by
      simp only [stringsReplaceAll, Piece.text]
      rw [if_neg (by simp), h1]
    simp only [removeMentions, List.map_cons, List.foldl_cons] at ih ⊢
    rw [e, ih, dropTokens_dropTokens]

/-- On a text made of scannable pieces the two loops of the second stage
delete exactly the tokens. -/
theorem removeMentions_findAllMentions (ps : List Piece)
    (hps : ps.all Piece.scannable = true) :
    removeMentions (findAllMentions (piecesText ps)) (piecesText ps) = plainText ps := by
  rw [findAllMentions_piecesText ps hps,
    removeMentions_piecesText (tokenBodies ps) ps (tokenBodies_isTokenRune ps hps) hps,
    piecesText_dropTokens_all (tokenBodies ps) ps (fun b hb => hb)]

theorem sanitize_of_pieces (s : GoString) (ps : List Piece)
    (hps : ps.all Piece.scannable = true) (hs : replaceAllKeyword s = piecesText ps) :
    sanitizeImageGenerationPrompt s = trimSpace (plainText ps) := by
  simp only [sanitizeImageGenerationPrompt]
  rw [hs, removeMentions_findAllMentions ps hps]

theorem all_scannable_of_wellFormed (ps : List Piece)
    (h : ps.all Piece.wellFormed = true) : ps.all Piece.scannable = true := by
  rw [List.all_eq_true] at h ⊢
  intro q hq
  have hw := h q hq
  cases q with
  | rune c =>
    simp only [Piece.wellFormed, isPlainRune, Bool.and_eq_true] at hw
    exact hw.1
  | token body => exact hw

theorem plainText_isPlainRune :
    ∀ (ps : List Piece), ps.all Piece.wellFormed = true →
      ∀ c ∈ plainText ps, isPlainRune c = true
  | [], _, c, hc => by simp [plainText] at hc
  | Piece.rune d :: ps, h, c, hc => by
    simp only [List.all_cons, Bool.and_eq_true, Piece.wellFormed] at h
    simp only [plainText, List.mem_cons] at hc
    rcases hc with hc | hc
    · rw [hc]; exact h.1
    · exact plainText_isPlainRune ps h.2 c hc
  | Piece.token body :: ps, h, c, hc => by
    simp only [List.all_cons, Bool.and_eq_true] at h
    exact plainText_isPlainRune ps h.2 c (by simpa [plainText] using hc)

theorem mem_of_mem_trimSpace (s : GoString) (c : Char) (h : c ∈ trimSpace s) : c ∈ s := by
  simp only [trimSpace, List.mem_reverse] at h
  have h1 := (List.dropWhile_sublist isSpace).subset h
  rw [List.mem_reverse] at h1
  exact (List.dropWhile_sublist isSpace).subset h1

theorem findAllMentionsAux_of_no_open :
    ∀ (s : GoString) (n : Nat), (∀ c ∈ s, c ≠ '<') → findAllMentionsAux n s = []
  | [], n, _ => by simp [findAllMentionsAux]
  | x :: xs, n + 1, h => by
    simpa [findAllMentionsAux] using
      findAllMentionsAux_of_no_open xs n (fun c hc => h c (List.mem_cons_of_mem _ hc))
  | x :: xs, 0, h => by
    have hx : x ≠ '<' := h x (List.mem_cons_self _ _)
    have hm : matchMention (x :: xs) = none := by
      cases xs with
      | nil => simp [matchMention]
      | cons d ds => simp [matchMention, hx]
    rw [findAllMentionsAux, hm]
    exact findAllMentionsAux_of_no_open xs 0 (fun c hc => h c (List.mem_cons_of_mem _ hc))

theorem replaceKeywordAux_spelling (K rest : GoString) (hK : isKeywordSpelling K = true) :
    replaceKeywordAux 0 (K ++ rest) = replaceKeywordAux 0 rest := by
  simp only [isKeywordSpelling, Bool.and_eq_true, beq_iff_eq] at hK
  cases K with
  | nil => simp [keyword] at hK
  | cons c cs =>
    have hlen : cs.length = keyword.length - 1 := by
      have := hK.1
      simp only [List.length_cons] at this
      omega
    have hm := hasPrefixFold_append rest keyword (c :: cs) hK.2
    rw [List.cons_append] at hm ⊢
    rw [replaceKeywordAux, if_pos hm]
    exact replaceKeywordAux_skip rest cs _ hlen

theorem foldEq_space : ∀ k ∈ keyword, foldEq k ' ' = false := by decide

theorem foldEq_open : ∀ k ∈ keyword, foldEq k '<' = false := by decide

theorem foldEq_close : ∀ k ∈ keyword, foldEq k '>' = false := by decide

theorem foldEq_at : ∀ k ∈ keyword, foldEq k '@' = false := by decide

theorem replaceKeywordAux_cons_sep (c : Char) (hc : ∀ k ∈ keyword, foldEq k c = false)
    (b : GoString) : replaceKeywordAux 0 (c :: b) = c :: replaceKeywordAux 0 b := by
  simpa [replaceKeywordAux] using replaceKeywordAux_sep c hc b [] 0 (Nat.le_refl _)

theorem piecesText_append (ps qs : List Piece) :
    piecesText (ps ++ qs) = piecesText ps ++ piecesText qs := by
  simp [piecesText]

theorem plainText_append : ∀ (ps qs : List Piece),
    plainText (ps ++ qs) = plainText ps ++ plainText qs
  | [], qs => rfl
  | Piece.rune c :: ps, qs => by simp [plainText, plainText_append ps qs]
  | Piece.token b :: ps, qs => by simp [plainText, plainText_append ps qs]

theorem piecesText_runes : ∀ (p : GoString), piecesText (p.map Piece.rune) = p
  | [] => rfl
  | c :: cs => by simp [piecesText_rune, piecesText_runes cs]

theorem plainText_runes : ∀ (p : GoString), plainText (p.map Piece.rune) = p
  | [] => rfl
  | c :: cs => by simp [plainText, plainText_runes cs]

theorem plainText_tokens : ∀ (bs : List GoString), plainText (bs.map Piece.token) = []
  | [] => rfl
  | b :: bs => by simp [plainText, plainText_tokens bs]

/-- The keyword scan over a run of mention tokens `<@ID>`: the brackets and the
`@` stay, the keyword is deleted inside each ID. -/
theorem replaceKeywordAux_tokens (rest : GoString) :
    ∀ (ids : List GoString),
      replaceKeywordAux 0 ((ids.map mentionToken).flatten ++ rest)
        = piecesText ((ids.map (fun id => '@' :: replaceKeywordAux 0 id)).map Piece.token)
          ++ replaceKeywordAux 0 rest
  | [] => by simp [piecesText]
  | id :: ids => by
    have ih := replaceKeywordAux_tokens rest ids
    have e : ((id :: ids).map mentionToken).flatten ++ rest
        = '<' :: '@' :: (id ++ '>' :: ((ids.map mentionToken).flatten ++ rest)) := by
      simp [mentionToken]
    rw [e, replaceKeywordAux_cons_sep '<' foldEq_open, replaceKeywordAux_cons_sep '@' foldEq_at,
      replaceKeywordAux_sep '>' foldEq_close _ id 0 (Nat.zero_le _), ih]
    simp [piecesText_token]

theorem trimSpace_cons_space (s : GoString) : trimSpace (' ' :: s) = trimSpace s := by
  have h : isSpace ' ' = true := by decide
  simp [trimSpace, List.dropWhile_cons, h]

theorem all_isTokenRune_of_sublist (a b : GoString) (h : a.Sublist b)
    (hb : b.all isTokenRune = true) : a.all isTokenRune = true := by
  rw [List.all_eq_true] at hb ⊢
  exact fun c hc => hb c (h.subset hc)

/-! ## The keyword has no border: occurrences never overlap -/

theorem foldEq_disjoint (k1 k2 c : Char)
    (h : k1 ≠ k2 ∧ k1 ≠ k2.toUpper ∧ k1.toUpper ≠ k2 ∧ k1.toUpper ≠ k2.toUpper)
    (h1 : foldEq k1 c = true) (h2 : foldEq k2 c = true) : False := by
  simp only [foldEq, Bool.or_eq_true, beq_iff_eq] at h1 h2
  rcases h1 with h1 | h1 <;> rcases h2 with h2 | h2 <;> rw [h1] at h2
  · exact h.1 h2
  · exact h.2.1 h2
  · exact h.2.2.1 h2
  · exact h.2.2.2 h2

theorem containsKeywordFold_cons (x : Char) (xs : GoString) :
    containsKeywordFold (x :: xs)
      = (hasPrefixFold keyword (x :: xs) || containsKeywordFold xs) := by
  simp [containsKeywordFold, List.tails]

/-- No occurrence of the keyword starts inside a keyword-free text `v` and
runs into a spelling `K` that follows it. -/
theorem hasPrefixFold_straddle (v K r : GoString) (hv : v ≠ [])
    (hvk : containsKeywordFold v = false) (hK : isKeywordSpelling K = true) :
    hasPrefixFold keyword (v ++ (K ++ r)) = false := by
  simp only [isKeywordSpelling, Bool.and_eq_true, beq_iff_eq] at hK
  obtain ⟨hlen, hm⟩ := hK
  rcases K with _ | ⟨c0, _ | ⟨c1, _ | ⟨c2, _ | ⟨c3, _ | ⟨c4, _ | ⟨c5, _ | ⟨c6, _ | ⟨c7, K⟩⟩⟩⟩⟩⟩⟩⟩ <;>
    simp [keyword] at hlen
  simp only [keyword, hasPrefixFold, Bool.and_eq_true, Bool.and_true] at hm
  obtain ⟨hc0, hc1, -⟩ := hm
  cases hres : hasPrefixFold keyword (v ++ ([c0, c1, c2, c3, c4, c5, c6] ++ r)) with
  | false => rfl
  | true =>
    exfalso
    rcases v with _ | ⟨v1, _ | ⟨v2, _ | ⟨v3, _ | ⟨v4, _ | ⟨v5, _ | ⟨v6, _ | ⟨v7, v⟩⟩⟩⟩⟩⟩⟩
    · exact hv rfl
    · simp only [keyword, hasPrefixFold, List.cons_append, List.nil_append,
        Bool.and_eq_true] at hres
      exact foldEq_disjoint 'i' 'm' c0 (by decide) hc0 hres.2.1
    · simp only [keyword, hasPrefixFold, List.cons_append, List.nil_append,
        Bool.and_eq_true] at hres
      exact foldEq_disjoint 'i' 'a' c0 (by decide) hc0 hres.2.2.1
    · simp only [keyword, hasPrefixFold, List.cons_append, List.nil_append,
        Bool.and_eq_true] at hres
      exact foldEq_disjoint 'i' 'g' c0 (by decide) hc0 hres.2.2.2.1
    · simp only [keyword, hasPrefixFold, List.cons_append, List.nil_append,
        Bool.and_eq_true] at hres
      exact foldEq_disjoint 'm' 'n' c1 (by decide) hc1 hres.2.2.2.2.2.1
    · simp only [keyword, hasPrefixFold, List.cons_append, List.nil_append,
        Bool.and_eq_true] at hres
      exact foldEq_disjoint 'i' 'n' c0 (by decide) hc0 hres.2.2.2.2.2.1
    · simp only [keyword, hasPrefixFold, List.cons_append, List.nil_append,
        Bool.and_eq_true] at hres
      exact foldEq_disjoint 'i' 'e' c0 (by decide) hc0 hres.2.2.2.2.2.2.1
    · rw [containsKeywordFold_cons, Bool.or_eq_false_iff] at hvk
      have h1 := hvk.1
      simp only [keyword, hasPrefixFold, List.cons_append, Bool.and_eq_true,
        Bool.and_true] at hres h1
      simp only [keyword, hasPrefixFold, hres.1, hres.2.1, hres.2.2.1, hres.2.2.2.1,
        hres.2.2.2.2.1, hres.2.2.2.2.2.1, hres.2.2.2.2.2.2, Bool.and_self] at h1
      exact Bool.noConfusion h1

/-- The keyword scan deletes a spelling that follows a keyword-free text and
leaves that text as it is. -/
theorem replaceKeywordAux_piece_spelling (K r : GoString) (hK : isKeywordSpelling K = true) :
    ∀ (p : GoString), containsKeywordFold p = false →
      replaceKeywordAux 0 (p ++ (K ++ r)) = p ++ replaceKeywordAux 0 r
  | [], _ => by simpa using replaceKeywordAux_spelling K r hK
  | x :: xs, h => by
    have hno := hasPrefixFold_straddle (x :: xs) K r (by simp) h hK
    rw [containsKeywordFold_cons, Bool.or_eq_false_iff] at h
    have ih := replaceKeywordAux_piece_spelling K r hK xs h.2
    rw [List.cons_append] at hno ⊢
    rw [replaceKeywordAux, if_neg (by rw [hno]; decide), ih]
    rfl

theorem replaceAllKeyword_interleave :
    ∀ (rest : List (GoString × GoString)) (p0 : GoString),
      containsKeywordFold p0 = false →
      rest.all (fun kp => isKeywordSpelling kp.1 && !containsKeywordFold kp.2) = true →
      replaceAllKeyword (interleave p0 rest) = joinPieces p0 rest
  | [], p0, h0, _ => by
    simpa [replaceAllKeyword, interleave, joinPieces] using
      replaceKeywordAux_of_not_contains p0 h0
  | (K, p1) :: rest, p0, h0, h => by
    simp only [List.all_cons, Bool.and_eq_true, Bool.not_eq_true'] at h
    have ih := replaceAllKeyword_interleave rest p1 h.1.2 h.2
    have e : interleave p0 ((K, p1) :: rest) = p0 ++ (K ++ interleave p1 rest) := by
      simp [interleave]
    simp only [replaceAllKeyword] at ih ⊢
    rw [e, replaceKeywordAux_piece_spelling K _ h.1.1 p0 h0, ih]
    simp [joinPieces]

theorem trimSpace_infix (s : GoString) : ∃ a b, s = a ++ (trimSpace s ++ b) := by
  obtain ⟨a, ha⟩ := List.dropWhile_suffix isSpace (l := s)
  obtain ⟨b, hb⟩ := List.dropWhile_suffix isSpace (l := (s.dropWhile isSpace).reverse)
  refine ⟨a, b.reverse, ?_⟩
  have h2 : s.dropWhile isSpace = trimSpace s ++ b.reverse := by
    have := congrArg List.reverse hb
    simp only [List.reverse_append, List.reverse_reverse] at this
    simpa [trimSpace] using this.symm
  rw [← h2, ha]

theorem containsKeywordFold_append_right (b : GoString) :
    ∀ (t : GoString), containsKeywordFold t = true → containsKeywordFold (t ++ b) = true
  | [], h => by simp [containsKeywordFold, keyword, hasPrefixFold] at h
  | x :: xs, h => by
    rw [containsKeywordFold_cons, Bool.or_eq_true] at h
    rw [List.cons_append, containsKeywordFold_cons, Bool.or_eq_true]
    rcases h with h | h
    · exact Or.inl (hasPrefixFold_append b keyword (x :: xs) h)
    · exact Or.inr (containsKeywordFold_append_right b xs h)

theorem containsKeywordFold_append_left (t : GoString) :
    ∀ (a : GoString), containsKeywordFold t = true → containsKeywordFold (a ++ t) = true
  | [], h => h
  | x :: xs, h => by
    rw [List.cons_append, containsKeywordFold_cons, Bool.or_eq_true]
    exact Or.inr (containsKeywordFold_append_left t xs h)

theorem containsKeywordFold_trimSpace (s : GoString) (h : containsKeywordFold s = false) :
    containsKeywordFold (trimSpace s) = false := by
  cases ht : containsKeywordFold (trimSpace s) with
  | false => rfl
  | true =>
    obtain ⟨a, b, hab⟩ := trimSpace_infix s
    have := containsKeywordFold_append_left _ a (containsKeywordFold_append_right b _ ht)
    rw [← hab, h] at this
    exact this.symm

theorem containsMention_of_no_open :
    ∀ (s : GoString), (∀ c ∈ s, c ≠ '<') → containsMention s = false
  | [], _ => by simp [containsMention, matchMention]
  | x :: xs, h => by
    have hx : x ≠ '<' := h x (List.mem_cons_self _ _)
    have ih := containsMention_of_no_open xs (fun c hc => h c (List.mem_cons_of_mem _ hc))
    have hm : matchMention (x :: xs) = none := by
      cases xs with
      | nil => simp [matchMention]
      | cons d ds => simp [matchMention, hx]
    simp only [containsMention, List.tails, List.any_cons, hm, Option.isSome_none,
      Bool.false_or] at ih ⊢
    exact ih

/-! ## The claims about `sanitizeImageGenerationPrompt` -/

/-- C1: for every spelling `K` of `imagine` in any mix of upper and lower case,
every list of mention tokens `<@ID>` whose IDs have no `<`, no `>` and no
newline, and every remainder `p` with no `<`, no `>` and no case-insensitive
occurrence of `imagine`, `sanitizeImageGenerationPrompt` maps
`K ++ " " ++ tokens ++ " " ++ p` to `p` with its leading and trailing white
space trimmed. -/
theorem sanitize_strips_keyword_and_mentions (K : GoString) (ids : List GoString)
    (p : GoString) (hK : isKeywordSpelling K = true)
    (hids : ids.all (fun id => id.all isTokenRune) = true)
    (hp : p.all isPlainRune = true) (hpk : containsKeywordFold p = false) :
    sanitizeImageGenerationPrompt
        (K ++ " ".toList ++ (ids.map mentionToken).flatten ++ " ".toList ++ p)
      = trimSpace p := by
  let ps : List Piece :=
    Piece.rune ' ' :: ((ids.map (fun id => '@' :: replaceKeywordAux 0 id)).map Piece.token
      ++ Piece.rune ' ' :: p.map Piece.rune)
  have hs : replaceAllKeyword
      (K ++ " ".toList ++ (ids.map mentionToken).flatten ++ " ".toList ++ p)
      = piecesText ps := by
    have e : K ++ " ".toList ++ (ids.map mentionToken).flatten ++ " ".toList ++ p
        = K ++ ' ' :: ((ids.map mentionToken).flatten ++ ' ' :: p) := by simp
    rw [replaceAllKeyword, e, replaceKeywordAux_spelling K _ hK,
      replaceKeywordAux_cons_sep ' ' foldEq_space, replaceKeywordAux_tokens,
      replaceKeywordAux_cons_sep ' ' foldEq_space, replaceKeywordAux_of_not_contains p hpk]
    simp only [ps, piecesText_rune, piecesText_append, piecesText_runes]
  have hwf : ps.all Piece.wellFormed = true := by
    simp only [ps, List.all_cons, List.all_append, Bool.and_eq_true]
    refine ⟨by decide, ?_, by decide, ?_⟩
    · rw [List.all_eq_true]
      intro q hq
      simp only [List.mem_map] at hq
      obtain ⟨b, ⟨id, hid, rfl⟩, rfl⟩ := hq
      have h1 := List.all_eq_true.1 hids id hid
      have h2 := all_isTokenRune_of_sublist _ _ (replaceKeywordAux_sublist id 0) h1
      have h3 : isTokenRune '@' = true := by decide
      simp [Piece.wellFormed, h2, h3]
    · rw [List.all_eq_true] at hp ⊢
      intro q hq
      simp only [List.mem_map] at hq
      obtain ⟨c, hc, rfl⟩ := hq
      simpa [Piece.wellFormed] using hp c hc
  rw [sanitize_of_pieces _ ps (all_scannable_of_wellFormed ps hwf) hs]
  simp only [ps, plainText, plainText_append, plainText_tokens, plainText_runes,
    List.nil_append, trimSpace_cons_space]

/-- C1, at the two texts of the specification: `Imagine <@U123> a purple cow`
gives `a purple cow`, and `IMAGINE <@U1><@U2> dragons` gives `dragons`. -/
theorem sanitize_strips_keyword_and_mentions_witness :
    (isKeywordSpelling "Imagine".toList = true ∧
      ["U123".toList].all (fun id => id.all isTokenRune) = true ∧
      "a purple cow".toList.all isPlainRune = true ∧
      containsKeywordFold "a purple cow".toList = false ∧
      sanitizeImageGenerationPrompt "Imagine <@U123> a purple cow".toList
        = "a purple cow".toList) ∧
    sanitizeImageGenerationPrompt "IMAGINE <@U1><@U2> dragons".toList
      = "dragons".toList :=
  ⟨⟨by decide, by decide, by decide, by decide,
      sanitize_strips_keyword_and_mentions "Imagine".toList ["U123".toList]
        "a purple cow".toList (by decide) (by decide) (by decide) (by decide)⟩,
    sanitize_strips_keyword_and_mentions "IMAGINE".toList ["U1".toList, "U2".toList]
      "dragons".toList (by decide) (by decide) (by decide) (by decide)⟩

/-- C2, refuted as stated: `imimagineagine` loses its inner `imagine` and the
text around it joins into `imagine`, which the result still contains; in
`imag<x>ine` the same happens around the deleted token `<x>`. -/
theorem sanitize_keeps_joined_keyword :
    sanitizeImageGenerationPrompt "imimagineagine".toList = "imagine".toList ∧
    containsKeywordFold (sanitizeImageGenerationPrompt "imimagineagine".toList) = true ∧
    sanitizeImageGenerationPrompt "imag<x>ine".toList = "imagine".toList := by
  decide

/-- C2, amended: every occurrence of the keyword present in the input is
deleted, once, in a single pass. For every input `p0 K1 p1 ... Kn pn` where
each `Ki` is a spelling of `imagine` in any mix of cases and each `pi` has no
case-insensitive occurrence of `imagine`, and whose remaining text
`p0 p1 ... pn` is made of runes other than `<` and of tokens `<body>` (body
not empty, without `<`, `>` and newline), the result is that remaining text
without its tokens, trimmed; it contains no occurrence of the keyword unless
the remaining text without its tokens does. -/
theorem sanitize_deletes_each_keyword_once (p0 : GoString)
    (rest : List (GoString × GoString)) (ps : List Piece)
    (h0 : containsKeywordFold p0 = false)
    (hrest : rest.all (fun kp => isKeywordSpelling kp.1 && !containsKeywordFold kp.2) = true)
    (hps : ps.all Piece.scannable = true)
    (hjoin : joinPieces p0 rest = piecesText ps) :
    sanitizeImageGenerationPrompt (interleave p0 rest) = trimSpace (plainText ps) ∧
    (containsKeywordFold (plainText ps) = false →
      containsKeywordFold (sanitizeImageGenerationPrompt (interleave p0 rest)) = false) := by
  have hs : sanitizeImageGenerationPrompt (interleave p0 rest)
      = trimSpace (plainText ps) :=
    sanitize_of_pieces (interleave p0 rest) ps hps
      (by rw [replaceAllKeyword_interleave rest p0 h0 hrest, hjoin])
  refine ⟨hs, fun h => ?_⟩
  rw [hs]
  exact containsKeywordFold_trimSpace _ h

/-- C2, amended, at `<@UBOT> imagine a cat > Imagine a dog `: the token and
both spellings go, the `>` outside the token stays, and the rest is trimmed. -/
theorem sanitize_deletes_each_keyword_once_witness :
    containsKeywordFold "<@UBOT> ".toList = false ∧
    [("imagine".toList, " a cat > ".toList), ("Imagine".toList, " a dog ".toList)].all
      (fun kp => isKeywordSpelling kp.1 && !containsKeywordFold kp.2) = true ∧
    (Piece.token "@UBOT".toList :: "  a cat >  a dog ".toList.map Piece.rune).all
      Piece.scannable = true ∧
    joinPieces "<@UBOT> ".toList
        [("imagine".toList, " a cat > ".toList), ("Imagine".toList, " a dog ".toList)]
      = piecesText (Piece.token "@UBOT".toList :: "  a cat >  a dog ".toList.map Piece.rune) ∧
    sanitizeImageGenerationPrompt "<@UBOT> imagine a cat > Imagine a dog ".toList
      = "a cat >  a dog".toList ∧
    containsKeywordFold
      (sanitizeImageGenerationPrompt "<@UBOT> imagine a cat > Imagine a dog ".toList)
      = false :=
  ⟨by decide, by decide, by decide, by decide,
    (sanitize_deletes_each_keyword_once "<@UBOT> ".toList
      [("imagine".toList, " a cat > ".toList), ("Imagine".toList, " a dog ".toList)]
      (Piece.token "@UBOT".toList :: "  a cat >  a dog ".toList.map Piece.rune)
      (by decide) (by decide) (by decide) (by decide)).1,
    (sanitize_deletes_each_keyword_once "<@UBOT> ".toList
      [("imagine".toList, " a cat > ".toList), ("Imagine".toList, " a dog ".toList)]
      (Piece.token "@UBOT".toList :: "  a cat >  a dog ".toList.map Piece.rune)
      (by decide) (by decide) (by decide) (by decide)).2 (by decide)⟩

/-- C3, refuted as stated: on `<>a><b<>a>c>` the matches are `<>a>` and `<b<>`;
deleting both occurrences of `<>a>` leaves `<bc>`, where `<b<>` no longer
occurs, and `<bc>` is a mention token. -/
theorem sanitize_leaves_mention_token :
    findAllMentions "<>a><b<>a>c>".toList = ["<>a>".toList, "<b<>".toList] ∧
    sanitizeImageGenerationPrompt "<>a><b<>a>c>".toList = "<bc>".toList ∧
    containsMention (sanitizeImageGenerationPrompt "<>a><b<>a>c>".toList) = true ∧
    findAllMentions (sanitizeImageGenerationPrompt "<>a><b<>a>c>".toList)
      = ["<bc>".toList] := by
  decide

/-- C3, amended: when the text left by the keyword removal is made of runes
other than `<` and `>` and of tokens `<body>` whose body is not empty and has
no `<`, no `>` and no newline, the result is the text outside the tokens,
trimmed: it has no `<` and no `>`, and the pattern `<.+?>` finds no match in
it. -/
theorem sanitize_removes_well_formed_tokens (s : GoString) (ps : List Piece)
    (hps : ps.all Piece.wellFormed = true) (hs : replaceAllKeyword s = piecesText ps) :
    sanitizeImageGenerationPrompt s = trimSpace (plainText ps) ∧
    (∀ c ∈ sanitizeImageGenerationPrompt s, c ≠ '<' ∧ c ≠ '>') ∧
    containsMention (sanitizeImageGenerationPrompt s) = false ∧
    findAllMentions (sanitizeImageGenerationPrompt s) = [] := by
  have hres := sanitize_of_pieces s ps (all_scannable_of_wellFormed ps hps) hs
  have hplain : ∀ c ∈ sanitizeImageGenerationPrompt s, c ≠ '<' ∧ c ≠ '>' := by
    intro c hc
    rw [hres] at hc
    have h1 := plainText_isPlainRune ps hps c (mem_of_mem_trimSpace _ c hc)
    simpa [isPlainRune] using h1
  exact ⟨hres, hplain, containsMention_of_no_open _ (fun c hc => (hplain c hc).1),
    findAllMentionsAux_of_no_open _ 0 (fun c hc => (hplain c hc).1)⟩

/-- C3, amended, at `hey <@U1> imagine <!here> cats<@U1>`. -/
theorem sanitize_removes_well_formed_tokens_witness :
    ("hey ".toList.map Piece.rune ++ Piece.token "@U1".toList :: "  ".toList.map Piece.rune
      ++ Piece.token "!here".toList :: " cats".toList.map Piece.rune
      ++ [Piece.token "@U1".toList]).all Piece.wellFormed = true ∧
    replaceAllKeyword "hey <@U1> imagine <!here> cats<@U1>".toList
      = "hey <@U1>  <!here> cats<@U1>".toList ∧
    sanitizeImageGenerationPrompt "hey <@U1> imagine <!here> cats<@U1>".toList
      = "hey    cats".toList ∧
    findAllMentions
      (sanitizeImageGenerationPrompt "hey <@U1> imagine <!here> cats<@U1>".toList) = [] :=
  ⟨by decide, by decide,
    (sanitize_removes_well_formed_tokens "hey <@U1> imagine <!here> cats<@U1>".toList
      ("hey ".toList.map Piece.rune ++ Piece.token "@U1".toList :: "  ".toList.map Piece.rune
        ++ Piece.token "!here".toList :: " cats".toList.map Piece.rune
        ++ [Piece.token "@U1".toList])
      (by decide) (by decide)).1,
    (sanitize_removes_well_formed_tokens "hey <@U1> imagine <!here> cats<@U1>".toList
      ("hey ".toList.map Piece.rune ++ Piece.token "@U1".toList :: "  ".toList.map Piece.rune
        ++ Piece.token "!here".toList :: " cats".toList.map Piece.rune
        ++ [Piece.token "@U1".toList])
      (by decide) (by decide)).2.2.2⟩

/-! ## The claims about the handlers -/

theorem postedMessages_append : ∀ (a b : List Call),
    postedMessages (a ++ b) = postedMessages a ++ postedMessages b
  | [], b => rfl
  | c :: cs, b => by
    cases c <;> simp [postedMessages, postedMessages_append cs b]

theorem callsSince_append (h t : List Call) : callsSince h (h ++ t) = t := by
  simp [callsSince]

/-- C4, refuted as stated: with a sender that fails on the acknowledgement the
workflow stops at the failed acknowledgement, the `Failed` state of the
specification, and not at the gate (`ImageSkipped`). -/
theorem handleMentionEvent_without_keyword_ack_fails :
    noImageNeeded asciiToLower "hello bot".toList = true ∧
    handleMentionEvent asciiToLower
        (exampleEnv ["C1".toList] (Result.ok ["u".toList]) [] none (Result.err []))
        (AppMentionEvent.mk "U7".toList "hello bot".toList "C1".toList) []
      = ([Call.postMessage "C1".toList
            (MsgOption.msgOptionText
              "<@U7> Try to ask me something like: _*imagine*_ pink unicorn laying eggs in desert".toList
              false)
            (some "channel_not_found".toList),
          Call.logError "channel_not_found".toList],
         MentionExit.ackFailed) ∧
    specEndState (handleMentionEvent asciiToLower
        (exampleEnv ["C1".toList] (Result.ok ["u".toList]) [] none (Result.err []))
        (AppMentionEvent.mk "U7".toList "hello bot".toList "C1".toList) []).2
      ≠ WorkflowState.imageSkipped := by
  decide

/-- C4, amended: when `noImageNeeded` holds of the text of the event, whatever
the sender returns, `handleMentionEvent` posts the acknowledgement (the text
`Try to ask me something like ...`) to the channel of the event and nothing
else, and sends no request to the image generator. When the acknowledgement is
sent, that post is all the workflow does and it stops at the gate
(`ImageSkipped`); when the sender returns an error, the workflow logs it and
stops there (`Failed`). -/
theorem handleMentionEvent_without_keyword (toLower : Char → Char) (env : Env)
    (ev : AppMentionEvent) (h : List Call)
    (hk : noImageNeeded toLower ev.text = true) :
    postedMessages (callsSince h (handleMentionEvent toLower env ev h).1)
      = [(ev.channel, buildSlackAckMessageOption toLower ev.user ev.text)] ∧
    imageRequests (callsSince h (handleMentionEvent toLower env ev h).1) = [] ∧
    buildSlackAckMessageOption toLower ev.user ev.text
      = MsgOption.msgOptionText ("<@".toList ++ ev.user ++
          "> Try to ask me something like: _*imagine*_ pink unicorn laying eggs in desert".toList)
          false ∧
    (env.postMessage h ev.channel (buildSlackAckMessageOption toLower ev.user ev.text) = none →
      handleMentionEvent toLower env ev h
        = (h ++ [Call.postMessage ev.channel
            (buildSlackAckMessageOption toLower ev.user ev.text) none],
           MentionExit.noImageNeeded) ∧
      specEndState (handleMentionEvent toLower env ev h).2 = WorkflowState.imageSkipped) ∧
    (∀ err, env.postMessage h ev.channel
        (buildSlackAckMessageOption toLower ev.user ev.text) = some err →
      handleMentionEvent toLower env ev h
        = (h ++ [Call.postMessage ev.channel
            (buildSlackAckMessageOption toLower ev.user ev.text) (some err),
            Call.logError err],
           MentionExit.ackFailed) ∧
      specEndState (handleMentionEvent toLower env ev h).2 = WorkflowState.failed) := by
  have hnone : env.postMessage h ev.channel
      (buildSlackAckMessageOption toLower ev.user ev.text) = none →
      handleMentionEvent toLower env ev h
        = (h ++ [Call.postMessage ev.channel
            (buildSlackAckMessageOption toLower ev.user ev.text) none],
           MentionExit.noImageNeeded) := by
    intro hp
    simp only [handleMentionEvent, postSlackMessage, hp, hk, if_true]
  have hsome : ∀ err, env.postMessage h ev.channel
      (buildSlackAckMessageOption toLower ev.user ev.text) = some err →
      handleMentionEvent toLower env ev h
        = (h ++ [Call.postMessage ev.channel
            (buildSlackAckMessageOption toLower ev.user ev.text) (some err),
            Call.logError err],
           MentionExit.ackFailed) := by
    intro err hp
    simp only [handleMentionEvent, postSlackMessage, hp]
    simp
  have hposts : postedMessages (callsSince h (handleMentionEvent toLower env ev h).1)
        = [(ev.channel, buildSlackAckMessageOption toLower ev.user ev.text)] ∧
      imageRequests (callsSince h (handleMentionEvent toLower env ev h).1) = [] := by
    cases hp : env.postMessage h ev.channel
        (buildSlackAckMessageOption toLower ev.user ev.text) with
    | none => rw [hnone hp, callsSince_append]; exact ⟨rfl, rfl⟩
    | some err => rw [hsome err hp, callsSince_append]; exact ⟨rfl, rfl⟩
  refine ⟨hposts.1, hposts.2, ?_, ?_, ?_⟩
  · simp only [buildSlackAckMessageOption, hk, if_true]
  · intro hp
    refine ⟨hnone hp, ?_⟩
    rw [hnone hp]
    rfl
  · intro err hp
    refine ⟨hsome err hp, ?_⟩
    rw [hsome err hp]
    rfl

/-- C4, amended, at the text `hello bot`, with a sender that succeeds and an
image generator ready to answer: the acknowledgement is the whole run. -/
theorem handleMentionEvent_without_keyword_witness :
    noImageNeeded asciiToLower "hello bot".toList = true ∧
    handleMentionEvent asciiToLower
        (exampleEnv [] (Result.ok ["https://img/1.png".toList]) [] none (Result.err []))
        (AppMentionEvent.mk "U7".toList "hello bot".toList "C1".toList) []
      = ([Call.postMessage "C1".toList
            (MsgOption.msgOptionText
              "<@U7> Try to ask me something like: _*imagine*_ pink unicorn laying eggs in desert".toList
              false)
            none],
         MentionExit.noImageNeeded) :=
  ⟨by decide,
    ((handleMentionEvent_without_keyword asciiToLower
      (exampleEnv [] (Result.ok ["https://img/1.png".toList]) [] none (Result.err []))
      (AppMentionEvent.mk "U7".toList "hello bot".toList "C1".toList) [] (by decide)).2.2.2.1
      rfl).1⟩

/-- C5, refuted as stated: the text contains the keyword and the image
generator answers a URL whenever it is asked, but the sender fails on the
acknowledgement: one message is posted, not two, and the generator is never
asked. -/
theorem handleMentionEvent_image_ack_fails :
    noImageNeeded asciiToLower "imagine a cat".toList = false ∧
    postedMessages (handleMentionEvent asciiToLower
        (exampleEnv ["C1".toList] (Result.ok ["https://img/1.png".toList]) [] none
          (Result.err []))
        (AppMentionEvent.mk "U7".toList "imagine a cat".toList "C1".toList) []).1
      = [("C1".toList, MsgOption.msgOptionText "<@U7> Got it, let me think...".toList false)] ∧
    imageRequests (handleMentionEvent asciiToLower
        (exampleEnv ["C1".toList] (Result.ok ["https://img/1.png".toList]) [] none
          (Result.err []))
        (AppMentionEvent.mk "U7".toList "imagine a cat".toList "C1".toList) []).1 = [] := by
  decide

/-- C5, amended: when the text of the event contains the keyword
(`noImageNeeded` is false), the acknowledgement is sent without error and the
image generator, asked for the sanitized prompt, returns the URL `u`,
`handleMentionEvent` posts exactly two messages, both to the channel of the
event: the acknowledgement `Got it, let me think...`, then the image message,
a section `here's what I imagine about '<prompt>'` and an image block with the
URL `u` and the sanitized prompt as its text. This holds whatever the sender
returns for the image message; the workflow ends `Completed` or, when that
send fails, `Failed`. -/
theorem handleMentionEvent_image (toLower : Char → Char) (env : Env)
    (ev : AppMentionEvent) (h : List Call) (u : GoString) (us : List GoString)
    (hk : noImageNeeded toLower ev.text = false)
    (hack : env.postMessage h ev.channel
      (buildSlackAckMessageOption toLower ev.user ev.text) = none)
    (hgen : env.createImage
      (h ++ [Call.postMessage ev.channel
        (buildSlackAckMessageOption toLower ev.user ev.text) none])
      (ImageRequest.mk (sanitizeImageGenerationPrompt ev.text) 1 createImageSize256x256)
      = Result.ok (u :: us)) :
    postedMessages (callsSince h (handleMentionEvent toLower env ev h).1)
      = [(ev.channel,
          MsgOption.msgOptionText ("<@".toList ++ ev.user ++ "> Got it, let me think...".toList)
            false),
         (ev.channel,
          MsgOption.msgOptionBlocks
            [Block.sectionBlock ("<@".toList ++ ev.user ++
                "> here's what I imagine about '".toList ++
                sanitizeImageGenerationPrompt ev.text ++ "'".toList),
             Block.imageBlock u (sanitizeImageGenerationPrompt ev.text) []])] ∧
    imageRequests (callsSince h (handleMentionEvent toLower env ev h).1)
      = [ImageRequest.mk (sanitizeImageGenerationPrompt ev.text) 1 createImageSize256x256] ∧
    buildSlackAckMessageOption toLower ev.user ev.text
      = MsgOption.msgOptionText ("<@".toList ++ ev.user ++ "> Got it, let me think...".toList)
          false ∧
    buildSlackImageMessageOption u ev.user (sanitizeImageGenerationPrompt ev.text)
      = MsgOption.msgOptionBlocks
          [Block.sectionBlock ("<@".toList ++ ev.user ++
              "> here's what I imagine about '".toList ++
              sanitizeImageGenerationPrompt ev.text ++ "'".toList),
           Block.imageBlock u (sanitizeImageGenerationPrompt ev.text) []] ∧
    (specEndState (handleMentionEvent toLower env ev h).2 = WorkflowState.completed ∨
      specEndState (handleMentionEvent toLower env ev h).2 = WorkflowState.failed) := by
  have hackmsg : buildSlackAckMessageOption toLower ev.user ev.text
      = MsgOption.msgOptionText ("<@".toList ++ ev.user ++ "> Got it, let me think...".toList)
          false := by
    simp only [buildSlackAckMessageOption, hk]
    rfl
  have himg : buildSlackImageMessageOption u ev.user (sanitizeImageGenerationPrompt ev.text)
      = MsgOption.msgOptionBlocks
          [Block.sectionBlock ("<@".toList ++ ev.user ++
              "> here's what I imagine about '".toList ++
              sanitizeImageGenerationPrompt ev.text ++ "'".toList),
           Block.imageBlock u (sanitizeImageGenerationPrompt ev.text) []] := rfl
  have key : postedMessages (callsSince h (handleMentionEvent toLower env ev h).1)
        = [(ev.channel, buildSlackAckMessageOption toLower ev.user ev.text),
           (ev.channel, buildSlackImageMessageOption u ev.user
              (sanitizeImageGenerationPrompt ev.text))] ∧
      imageRequests (callsSince h (handleMentionEvent toLower env ev h).1)
        = [ImageRequest.mk (sanitizeImageGenerationPrompt ev.text) 1 createImageSize256x256] ∧
      (specEndState (handleMentionEvent toLower env ev h).2 = WorkflowState.completed ∨
        specEndState (handleMentionEvent toLower env ev h).2 = WorkflowState.failed) := by
    cases hp2 : env.postMessage
        (h ++ [Call.postMessage ev.channel
            (buildSlackAckMessageOption toLower ev.user ev.text) none] ++
          [Call.createImage
            (ImageRequest.mk (sanitizeImageGenerationPrompt ev.text) 1 createImageSize256x256)
            (Result.ok (u :: us))])
        ev.channel
        (buildSlackImageMessageOption u ev.user (sanitizeImageGenerationPrompt ev.text)) <;>
    · simp only [handleMentionEvent, postSlackMessage, generateImageUrlByUserText, hack, hk,
        hgen, hp2]
      simp [callsSince, postedMessages, imageRequests, specEndState]
  refine ⟨?_, key.2.1, hackmsg, himg, key.2.2⟩
  rw [← hackmsg, ← himg]
  exact key.1

/-- C5, amended, at the text `Imagine <@U123> a purple cow`. -/
theorem handleMentionEvent_image_witness :
    noImageNeeded asciiToLower "Imagine <@U123> a purple cow".toList = false ∧
    postedMessages (callsSince []
        (handleMentionEvent asciiToLower
          (exampleEnv [] (Result.ok ["https://img/1.png".toList]) [] none (Result.err []))
          (AppMentionEvent.mk "U7".toList "Imagine <@U123> a purple cow".toList "C1".toList)
          []).1)
      = [("C1".toList, MsgOption.msgOptionText "<@U7> Got it, let me think...".toList false),
         ("C1".toList,
          MsgOption.msgOptionBlocks
            [Block.sectionBlock "<@U7> here's what I imagine about 'a purple cow'".toList,
             Block.imageBlock "https://img/1.png".toList "a purple cow".toList []])] :=
  ⟨by decide,
    (handleMentionEvent_image asciiToLower
      (exampleEnv [] (Result.ok ["https://img/1.png".toList]) [] none (Result.err []))
      (AppMentionEvent.mk "U7".toList "Imagine <@U123> a purple cow".toList "C1".toList)
      [] "https://img/1.png".toList [] (by decide) rfl rfl).1⟩

/-- C6, refuted as stated: the text contains the keyword and the image
generator fails whenever it is asked, but the sender fails on the
acknowledgement: one message is posted, not two, and the generator is never
asked. -/
theorem handleMentionEvent_generation_error_ack_fails :
    noImageNeeded asciiToLower "imagine a cat".toList = false ∧
    postedMessages (handleMentionEvent asciiToLower
        (exampleEnv ["C1".toList] (Result.err "rate limit".toList) [] none (Result.err []))
        (AppMentionEvent.mk "U7".toList "imagine a cat".toList "C1".toList) []).1
      = [("C1".toList, MsgOption.msgOptionText "<@U7> Got it, let me think...".toList false)] ∧
    imageRequests (handleMentionEvent asciiToLower
        (exampleEnv ["C1".toList] (Result.err "rate limit".toList) [] none (Result.err []))
        (AppMentionEvent.mk "U7".toList "imagine a cat".toList "C1".toList) []).1 = [] := by
  decide

/-- C6, amended: when the text of the event contains the keyword
(`noImageNeeded` is false), the acknowledgement is sent without error and the
image generator, asked for the sanitized prompt, returns the error `e`,
`handleMentionEvent` posts exactly two messages, both to the channel of the
event: the acknowledgement `Got it, let me think...`, then the text message
`<@user> ` followed by the text of `e`; no image message is posted, whatever
the sender returns for the second message, and the workflow ends `Failed`. -/
theorem handleMentionEvent_generation_error (toLower : Char → Char) (env : Env)
    (ev : AppMentionEvent) (h : List Call) (e : GoError)
    (hk : noImageNeeded toLower ev.text = false)
    (hack : env.postMessage h ev.channel
      (buildSlackAckMessageOption toLower ev.user ev.text) = none)
    (hgen : env.createImage
      (h ++ [Call.postMessage ev.channel
        (buildSlackAckMessageOption toLower ev.user ev.text) none])
      (ImageRequest.mk (sanitizeImageGenerationPrompt ev.text) 1 createImageSize256x256)
      = Result.err e) :
    postedMessages (callsSince h (handleMentionEvent toLower env ev h).1)
      = [(ev.channel,
          MsgOption.msgOptionText ("<@".toList ++ ev.user ++ "> Got it, let me think...".toList)
            false),
         (ev.channel,
          MsgOption.msgOptionText ("<@".toList ++ ev.user ++ "> ".toList ++ e) false)] ∧
    imageRequests (callsSince h (handleMentionEvent toLower env ev h).1)
      = [ImageRequest.mk (sanitizeImageGenerationPrompt ev.text) 1 createImageSize256x256] ∧
    buildSlackSimpleTextMessageOption ev.user e
      = MsgOption.msgOptionText ("<@".toList ++ ev.user ++ "> ".toList ++ e) false ∧
    (handleMentionEvent toLower env ev h).2 = MentionExit.generationFailed ∧
    specEndState (handleMentionEvent toLower env ev h).2 = WorkflowState.failed := by
  have hackmsg : buildSlackAckMessageOption toLower ev.user ev.text
      = MsgOption.msgOptionText ("<@".toList ++ ev.user ++ "> Got it, let me think...".toList)
          false := by
    simp only [buildSlackAckMessageOption, hk]
    rfl
  have htxt : buildSlackSimpleTextMessageOption ev.user e
      = MsgOption.msgOptionText ("<@".toList ++ ev.user ++ "> ".toList ++ e) false := rfl
  have hrun : handleMentionEvent toLower env ev h
      = (h ++ [Call.postMessage ev.channel
            (buildSlackAckMessageOption toLower ev.user ev.text) none,
          Call.createImage
            (ImageRequest.mk (sanitizeImageGenerationPrompt ev.text) 1 createImageSize256x256)
            (Result.err e),
          Call.postMessage ev.channel (buildSlackSimpleTextMessageOption ev.user e)
            (env.postMessage
              (h ++ [Call.postMessage ev.channel
                  (buildSlackAckMessageOption toLower ev.user ev.text) none] ++
                [Call.createImage
                  (ImageRequest.mk (sanitizeImageGenerationPrompt ev.text) 1
                    createImageSize256x256)
                  (Result.err e)])
              ev.channel (buildSlackSimpleTextMessageOption ev.user e)),
          Call.logError e],
         MentionExit.generationFailed) := by
    simp only [handleMentionEvent, postSlackMessage, generateImageUrlByUserText, hack, hk,
      hgen]
    simp
  refine ⟨?_, ?_, htxt, ?_, ?_⟩
  · rw [← hackmsg, ← htxt, hrun, callsSince_append]
    rfl
  · rw [hrun, callsSince_append]
    rfl
  · rw [hrun]
  · rw [hrun]
    rfl

/-- C6, amended, at the text `imagine a cat`, with an image API that fails. -/
theorem handleMentionEvent_generation_error_witness :
    noImageNeeded asciiToLower "imagine a cat".toList = false ∧
    handleMentionEvent asciiToLower
        (exampleEnv [] (Result.err "rate limit".toList) [] none (Result.err []))
        (AppMentionEvent.mk "U7".toList "imagine a cat".toList "C1".toList) []
      = ([Call.postMessage "C1".toList
            (MsgOption.msgOptionText "<@U7> Got it, let me think...".toList false) none,
          Call.createImage (ImageRequest.mk "a cat".toList 1 "256x256".toList)
            (Result.err "rate limit".toList),
          Call.postMessage "C1".toList
            (MsgOption.msgOptionText "<@U7> rate limit".toList false) none,
          Call.logError "rate limit".toList],
         MentionExit.generationFailed) ∧
    postedMessages (callsSince []
        (handleMentionEvent asciiToLower
          (exampleEnv [] (Result.err "rate limit".toList) [] none (Result.err []))
          (AppMentionEvent.mk "U7".toList "imagine a cat".toList "C1".toList) []).1)
      = [("C1".toList, MsgOption.msgOptionText "<@U7> Got it, let me think...".toList false),
         ("C1".toList, MsgOption.msgOptionText "<@U7> rate limit".toList false)] :=
  ⟨by decide, by decide,
    (handleMentionEvent_generation_error asciiToLower
      (exampleEnv [] (Result.err "rate limit".toList) [] none (Result.err []))
      (AppMentionEvent.mk "U7".toList "imagine a cat".toList "C1".toList)
      [] "rate limit".toList (by decide) rfl rfl).1⟩

theorem guard_false (m : Prop) [Decidable m] (a b : Bool) (hm : m)
    (hab : a = true ∨ b = true) : (decide (¬ m) || (!a && !b)) = false := by
  rcases hab with hab | hab <;> subst hab <;> simp [hm]

theorem guard_true (m : Prop) [Decidable m] (a b : Bool)
    (hab : ¬ m ∨ (a = false ∧ b = false)) : (decide (¬ m) || (!a && !b)) = true := by
  rcases hab with hab | hab
  · simp [hab]
  · simp [hab.1, hab.2]

theorem rangeChannels_posts (env : Env) (msg : GoString) :
    ∀ (channels : List GoString) (h : List Call),
      ∃ t, rangeChannels env msg channels h = h ++ t ∧
        postedMessages t
          = channels.map (fun ch => (ch, MsgOption.msgOptionText msg false))
  | [], h => ⟨[], by simp [rangeChannels], rfl⟩
  | ch :: chs, h => by
    cases hp : env.postMessage h ch (MsgOption.msgOptionText msg false) with
    | none =>
      obtain ⟨t, ht, hposted⟩ := rangeChannels_posts env msg chs
        (h ++ [Call.postMessage ch (MsgOption.msgOptionText msg false) none])
      refine ⟨Call.postMessage ch (MsgOption.msgOptionText msg false) none :: t, ?_, ?_⟩
      · simp only [rangeChannels, postSlackMessage, hp]
        rw [ht]
        simp
      · simp [postedMessages, hposted]
    | some err =>
      obtain ⟨t, ht, hposted⟩ := rangeChannels_posts env msg chs
        (h ++ [Call.postMessage ch (MsgOption.msgOptionText msg false) (some err)]
          ++ [Call.logError err])
      refine ⟨Call.postMessage ch (MsgOption.msgOptionText msg false) (some err)
        :: Call.logError err :: t, ?_, ?_⟩
      · simp only [rangeChannels, postSlackMessage, hp]
        rw [ht]
        simp
      · simp [postedMessages, hposted]

/-- C7: for every accepted request (method `POST`, host beginning with
`localhost` or `127.0.0.1`) without a `channel` value, when `AuthTest` and
`GetConversationsForUser` succeed and return the conversations `c1..cN`,
`handleSendToChannelsRequest` posts the message of the request exactly once to
every `ci`, in the order returned, whatever the sender returns for each of
them. -/
theorem handleSendToChannelsRequest_broadcast (env : Env) (r : Request) (h : List Call)
    (userID : GoString) (channels : List GoString)
    (hm : r.method = "POST".toList)
    (hh : stringsHasPrefixOf r.host "localhost".toList = true ∨
      stringsHasPrefixOf r.host "127.0.0.1".toList = true)
    (hc : r.formValue "channel".toList = [])
    (ha : env.authTest h = Result.ok userID)
    (hl : env.getConversationsForUser (h ++ [Call.authTest (Result.ok userID)])
      (GetConversationsForUserParameters.mk userID true 100) = Result.ok channels) :
    postedMessages (callsSince h (handleSendToChannelsRequest env r h))
      = channels.map
          (fun ch => (ch, MsgOption.msgOptionText (r.formValue "message".toList) false)) := by
  obtain ⟨t, ht, hposted⟩ := rangeChannels_posts env (r.formValue "message".toList) channels
    (h ++ [Call.authTest (Result.ok userID)] ++
      [Call.getConversationsForUser (GetConversationsForUserParameters.mk userID true 100)
        (Result.ok channels)])
  have hguard : (decide (r.method ≠ "POST".toList) ||
      (!stringsHasPrefixOf r.host "localhost".toList &&
        !stringsHasPrefixOf r.host "127.0.0.1".toList)) = false :=
    guard_false _ _ _ hm hh
  have hrun : handleSendToChannelsRequest env r h
      = h ++ (Call.authTest (Result.ok userID) ::
          Call.getConversationsForUser (GetConversationsForUserParameters.mk userID true 100)
            (Result.ok channels) :: t) := by
    simp only [handleSendToChannelsRequest, hguard, hc, ha, hl]
    simp only [Bool.false_eq_true, if_false, ne_eq, not_true_eq_false]
    rw [ht]
    simp
  rw [hrun, callsSince_append]
  simpa [postedMessages] using hposted

/-- C7, with three conversations and a sender that fails on the second: the
message is still posted to all three, in order. -/
theorem handleSendToChannelsRequest_broadcast_witness :
    postedMessages (callsSince []
        (handleSendToChannelsRequest
          (exampleEnv ["C2".toList] (Result.err []) ["C1".toList, "C2".toList, "C3".toList]
            none (Result.err []))
          (Request.mk "POST".toList "localhost:8080".toList
            (fun key => if key = "message".toList then "hi".toList else []))
          []))
      = [("C1".toList, MsgOption.msgOptionText "hi".toList false),
         ("C2".toList, MsgOption.msgOptionText "hi".toList false),
         ("C3".toList, MsgOption.msgOptionText "hi".toList false)] :=
  handleSendToChannelsRequest_broadcast
    (exampleEnv ["C2".toList] (Result.err []) ["C1".toList, "C2".toList, "C3".toList]
      none (Result.err []))
    (Request.mk "POST".toList "localhost:8080".toList
      (fun key => if key = "message".toList then "hi".toList else []))
    [] "UBOT".toList ["C1".toList, "C2".toList, "C3".toList]
    (by decide) (Or.inl (by decide)) (by decide) rfl rfl

/-- C8, refuted as stated: a `POST` whose host is `localhost.evil.com`, a host
name other than `localhost` and `127.0.0.1`, passes the check and its message
is posted. -/
theorem handleSendToChannelsRequest_accepts_foreign_host :
    postedMessages (callsSince []
        (handleSendToChannelsRequest
          (exampleEnv [] (Result.err []) [] none (Result.err []))
          (Request.mk "POST".toList "localhost.evil.com".toList
            (fun key => if key = "message".toList then "hi".toList else "C1".toList))
          []))
      = [("C1".toList, MsgOption.msgOptionText "hi".toList false)] := by
  decide

/-- C8, amended: a request whose method is not `POST`, or whose host begins
neither with `localhost` nor with `127.0.0.1`, is rejected: the handler logs
the error and does nothing else, so it posts no message and calls neither
`AuthTest` nor `GetConversationsForUser`. -/
theorem handleSendToChannelsRequest_rejects (env : Env) (r : Request) (h : List Call)
    (hrej : r.method ≠ "POST".toList ∨
      (stringsHasPrefixOf r.host "localhost".toList = false ∧
        stringsHasPrefixOf r.host "127.0.0.1".toList = false)) :
    callsSince h (handleSendToChannelsRequest env r h)
      = [Call.logError
          ("only POST requests from localhost allowed, you requested ".toList ++ r.method ++
            ", host: ".toList ++ r.host)] ∧
    postedMessages (callsSince h (handleSendToChannelsRequest env r h)) = [] := by
  have hguard : (decide (r.method ≠ "POST".toList) ||
      (!stringsHasPrefixOf r.host "localhost".toList &&
        !stringsHasPrefixOf r.host "127.0.0.1".toList)) = true :=
    guard_true _ _ _ hrej
  have hrun : handleSendToChannelsRequest env r h
      = h ++ [Call.logError
          ("only POST requests from localhost allowed, you requested ".toList ++ r.method ++
            ", host: ".toList ++ r.host)] := by
    simp only [handleSendToChannelsRequest, hguard, if_true]
  rw [hrun, callsSince_append]
  exact ⟨rfl, rfl⟩

/-- C8, amended, at a `GET` from `localhost` and at a `POST` to `example.com`. -/
theorem handleSendToChannelsRequest_rejects_witness :
    postedMessages (callsSince []
        (handleSendToChannelsRequest
          (exampleEnv [] (Result.err []) ["C1".toList] none (Result.err []))
          (Request.mk "GET".toList "localhost".toList (fun _ => "C1".toList)) [])) = [] ∧
    postedMessages (callsSince []
        (handleSendToChannelsRequest
          (exampleEnv [] (Result.err []) ["C1".toList] none (Result.err []))
          (Request.mk "POST".toList "example.com".toList (fun _ => "C1".toList)) [])) = [] :=
  ⟨(handleSendToChannelsRequest_rejects
      (exampleEnv [] (Result.err []) ["C1".toList] none (Result.err []))
      (Request.mk "GET".toList "localhost".toList (fun _ => "C1".toList)) []
      (Or.inl (by decide))).2,
    (handleSendToChannelsRequest_rejects
      (exampleEnv [] (Result.err []) ["C1".toList] none (Result.err []))
      (Request.mk "POST".toList "example.com".toList (fun _ => "C1".toList)) []
      (Or.inr ⟨by decide, by decide⟩)).2⟩

/-- C9: when the body cannot be read or `verifySlackSignature` returns an
error, `handleEventRequest` writes status 400 and does nothing else: no body
is written, the event is not parsed and no mention workflow is started. -/
theorem handleEventRequest_rejects_unverified (env : Env) (r : EventRequest)
    (h : List Call) (hfail : failsVerification env r = true) :
    callsSince h (handleEventRequest env r h) = [Call.writeHeader 400] ∧
    responseStatus (callsSince h (handleEventRequest env r h)) = 400 := by
  have hrun : handleEventRequest env r h = h ++ [Call.writeHeader 400] := by
    unfold failsVerification at hfail
    cases hb : r.readAll with
    | err e => simp only [handleEventRequest, hb]
    | ok body =>
      rw [hb] at hfail
      cases hv : verifySlackSignature env r.header body with
      | none => simp [hv] at hfail
      | some err => simp only [handleEventRequest, hb, hv]
  rw [hrun, callsSince_append]
  exact ⟨rfl, rfl⟩

/-- C9, at a request whose signature check fails and at one whose body cannot
be read. -/
theorem handleEventRequest_rejects_unverified_witness :
    callsSince []
        (handleEventRequest
          (exampleEnv [] (Result.err []) [] (some "Expired timestamp".toList)
            (Result.ok (EventsAPIEvent.mk "event_callback".toList
              (InnerEventData.appMentionEvent
                (AppMentionEvent.mk "U7".toList "imagine".toList "C1".toList)))))
          (EventRequest.mk (Result.ok "body".toList) []) [])
      = [Call.writeHeader 400] ∧
    callsSince []
        (handleEventRequest
          (exampleEnv [] (Result.err []) [] none (Result.err []))
          (EventRequest.mk (Result.err "unexpected EOF".toList) []) [])
      = [Call.writeHeader 400] :=
  ⟨(handleEventRequest_rejects_unverified
      (exampleEnv [] (Result.err []) [] (some "Expired timestamp".toList)
        (Result.ok (EventsAPIEvent.mk "event_callback".toList
          (InnerEventData.appMentionEvent
            (AppMentionEvent.mk "U7".toList "imagine".toList "C1".toList)))))
      (EventRequest.mk (Result.ok "body".toList) []) [] (by decide)).1,
    (handleEventRequest_rejects_unverified
      (exampleEnv [] (Result.err []) [] none (Result.err []))
      (EventRequest.mk (Result.err "unexpected EOF".toList) []) [] (by decide)).1⟩

/-- C10, refuted as stated: a verified callback event whose inner event is a
plain message gets no `WriteHeader` at all, so the response has status 200,
not 500. -/
theorem handleEventRequest_unsupported_inner_not_500 :
    callsSince []
        (handleEventRequest
          (exampleEnv [] (Result.err []) [] none
            (Result.ok (EventsAPIEvent.mk "event_callback".toList
              (InnerEventData.other "message".toList))))
          (EventRequest.mk (Result.ok "body".toList) []) [])
      = [Call.parseEvent "body".toList,
         Call.logError "unsupported callback event type: message".toList] ∧
    responseStatus (callsSince []
        (handleEventRequest
          (exampleEnv [] (Result.err []) [] none
            (Result.ok (EventsAPIEvent.mk "event_callback".toList
              (InnerEventData.other "message".toList))))
          (EventRequest.mk (Result.ok "body".toList) []) [])) ≠ 500 := by
  decide

/-- C10, amended: for a request that passes the signature check and parses as
a callback event whose inner event is not an app mention, `handleEventRequest`
only logs `unsupported callback event type`: it writes no status and no body,
so the response has status 200, and it starts no mention workflow. -/
theorem handleEventRequest_unsupported_inner (env : Env) (r : EventRequest) (h : List Call)
    (body rendered : GoString)
    (hb : r.readAll = Result.ok body)
    (hv : verifySlackSignature env r.header body = none)
    (hparse : env.parseEvent body
      = Result.ok (EventsAPIEvent.mk "event_callback".toList (InnerEventData.other rendered))) :
    callsSince h (handleEventRequest env r h)
      = [Call.parseEvent body,
         Call.logError ("unsupported callback event type: ".toList ++ rendered)] ∧
    responseStatus (callsSince h (handleEventRequest env r h)) = 200 := by
  have hne : ¬ ("event_callback".toList = "url_verification".toList) := by decide
  have hrun : handleEventRequest env r h
      = h ++ [Call.parseEvent body,
          Call.logError ("unsupported callback event type: ".toList ++ rendered)] := by
    simp only [handleEventRequest, hb, hv, hparse, if_neg hne, if_true]
    simp
  rw [hrun, callsSince_append]
  exact ⟨rfl, rfl⟩

/-- C10, amended, at a callback event whose inner event is a plain message. -/
theorem handleEventRequest_unsupported_inner_witness :
    responseStatus (callsSince []
        (handleEventRequest
          (exampleEnv [] (Result.err []) [] none
            (Result.ok (EventsAPIEvent.mk "event_callback".toList
              (InnerEventData.other "message".toList))))
          (EventRequest.mk (Result.ok "payload".toList) []) [])) = 200 :=
  (handleEventRequest_unsupported_inner
    (exampleEnv [] (Result.err []) [] none
      (Result.ok (EventsAPIEvent.mk "event_callback".toList
        (InnerEventData.other "message".toList))))
    (EventRequest.mk (Result.ok "payload".toList) []) [] "payload".toList "message".toList
    rfl rfl rfl).2

end Aibot
